import Mathlib

/-!
# bootctl: boot-stream encoder, boot-partition register and reset watchdog

A shallow embedding of `src/bootctl/bootctl.c`.

* Machine words are natural numbers; a C `int` argument is an `Int` that is
  converted to `unsigned long` with `to_ulong` where the source mixes it with
  an `UL` constant.
* Bytes are natural numbers, byte sequences are lists.
* The process runs against an explicit `World`: the files and devices the
  program touches, together with a script that fixes the outcome of every
  system call in order (success, `EINTR`, another error, a partial transfer).
* `die` ends the process; a run is a `Res`: either the function returned a
  value, or the process died, in both cases with the world it left behind.
-/

namespace Bootctl

/-! ## Constants -/

/-- Address of the boot FIFO register: C macro BOOT_FIFO_ADDR. -/
def BOOT_FIFO_ADDR : Nat := 0x0408

/-- Size of a segment header in bytes: C macro SEGMENT_HEADER_LEN. -/
def SEGMENT_HEADER_LEN : Nat := 8

/-- Largest segment the encoder emits: C macro MAX_SEG_LEN. -/
def MAX_SEG_LEN : Nat := (1 <<< 20) - SEGMENT_HEADER_LEN

def MMC_SWITCH : Nat := 6
def MMC_SEND_EXT_CSD : Nat := 8
def MMC_RSP_PRESENT : Nat := 1 <<< 0
def MMC_RSP_CRC : Nat := 1 <<< 2
def MMC_RSP_BUSY : Nat := 1 <<< 3
def MMC_RSP_OPCODE : Nat := 1 <<< 4
def MMC_RSP_SPI_S1 : Nat := 1 <<< 7
def MMC_RSP_SPI_BUSY : Nat := 1 <<< 10
def MMC_RSP_SPI_R1 : Nat := MMC_RSP_SPI_S1
def MMC_RSP_R1 : Nat := MMC_RSP_PRESENT ||| MMC_RSP_CRC ||| MMC_RSP_OPCODE
def MMC_RSP_R1B : Nat := MMC_RSP_PRESENT ||| MMC_RSP_CRC ||| MMC_RSP_OPCODE ||| MMC_RSP_BUSY
def MMC_RSP_SPI_R1B : Nat := MMC_RSP_SPI_S1 ||| MMC_RSP_SPI_BUSY
def MMC_CMD_AC : Nat := 0 <<< 5
def MMC_CMD_ADTC : Nat := 1 <<< 5
def MMC_SWITCH_MODE_WRITE_BYTE : Nat := 0x03
def EXT_CSD_CMD_SET_NORMAL : Nat := 1 <<< 0
def EXT_CSD_PART_CONFIG : Nat := 179
def EMMC_BLOCK_SIZE : Nat := 512

/-! ## Integer conversions -/

/-- Conversion of a C `int` to `unsigned long` (64 bits, two's complement). -/
def to_ulong (x : Int) : Nat := (x % 2 ^ 64).toNat

/-- Conversion of a C `int` to its 32-bit two's complement bit pattern. -/
def to_uint (x : Int) : Nat := (x % 2 ^ 32).toNat

/-- The eight bytes of a 64-bit word in memory, least significant byte first
(the host byte order of the little-endian machines the tool is built for;
the source writes the word straight from memory). -/
def le64 (x : Nat) : List Nat :=
  [x % 256, x / 2 ^ 8 % 256, x / 2 ^ 16 % 256, x / 2 ^ 24 % 256,
   x / 2 ^ 32 % 256, x / 2 ^ 40 % 256, x / 2 ^ 48 % 256, x / 2 ^ 56 % 256]

/-- The 64-bit word held by eight bytes in memory, least significant first. -/
def of_le64 (bs : List Nat) : Nat :=
  bs.getD 0 0 + 2 ^ 8 * bs.getD 1 0 + 2 ^ 16 * bs.getD 2 0 + 2 ^ 24 * bs.getD 3 0 +
  2 ^ 32 * bs.getD 4 0 + 2 ^ 40 * bs.getD 5 0 + 2 ^ 48 * bs.getD 6 0 + 2 ^ 56 * bs.getD 7 0

/-! ## gen_seg_header -/

/-- Boot stream segment header: C function gen_seg_header (lines 254-260).
The three `int` arguments are converted to `unsigned long` by the `UL` masks;
`length` is a `size_t`, so `length + SEGMENT_HEADER_LEN` wraps at 2^64. -/
def gen_seg_header (is_end channel address : Int) (length : Nat) : Nat :=
  ((to_ulong is_end &&& 0x1) <<< 63) |||
  ((to_ulong channel &&& 0xf) <<< 45) |||
  ((to_ulong address &&& 0xfff8) <<< 29) |||
  ((((length + SEGMENT_HEADER_LEN) % 2 ^ 64) >>> 3) &&& 0x1ffff)

/-! ## The world outside the process -/

/-- Outcome the environment gives to one system call. The outcomes eintr and
part describe read(2) and write(2), the two calls the source retries; any
other call fails on error only and takes eintr and part as success. -/
inductive Rc where
  /-- the call succeeds and transfers all it can -/
  | ok
  /-- a read or write fails with errno EINTR -/
  | eintr
  /-- the call fails with an errno the source does not retry -/
  | error
  /-- a read or write succeeds and transfers at most k bytes; with k = 0 it
  returns 0 -/
  | part (k : Nat)
  deriving DecidableEq, Repr

/-- Files, devices and process-wide variables the program works on. -/
structure World where
  /-- outcomes of the system calls still to come, in order; once the script
  is used up every call succeeds in full -/
  script : List Rc
  /-- content of /sys/block/DEV/force_ro for the output device, none when
  there is no such entry -/
  force_ro : Option (List Nat)
  /-- file offset of the descriptor sysfd -/
  sys_pos : Nat
  /-- bytes of the bootstream file that read(2) has not delivered yet -/
  image : List Nat
  /-- st_size that fstat(2) reports for the bootstream file -/
  st_size : Nat
  /-- bytes passed to write(2) on the descriptor ofd so far, in order -/
  out : List Nat
  /-- indeterminate content of freshly allocated memory, by offset -/
  heap : Nat → Nat
  /-- static variable mmc_fd of mmc_command: true once the device is open -/
  mmc_fd : Bool
  /-- extended CSD register block held by the eMMC device, by byte index -/
  card : Nat → Nat
  /-- static buffer ext_csd of get_boot_partition -/
  ext_csd : List Nat
  /-- text of the entry post_reset_wdog, none when the entry is missing -/
  post_reset_wdog : Option (List Char)
  /-- text of the entry second_reset_action, none when it is missing -/
  second_reset_action : Option (List Char)

/-- Result of running a piece of the program: it returned a value, or the
process was ended by die; either way with the world it left. -/
inductive Res (α : Type) where
  | ret (a : α) (w : World)
  | died (w : World)

/-- Sequencing: the rest of the program runs only when the first part returned. -/
def Res.bind {α β : Type} (r : Res α) (f : α → World → Res β) : Res β :=
  match r with
  | .ret a w => f a w
  | .died w => .died w

/-- World a run ended in. -/
def Res.world {α : Type} : Res α → World
  | .ret _ w => w
  | .died w => w

/-- Value a run returned, none when the process died. -/
def Res.value {α : Type} : Res α → Option α
  | .ret a _ => some a
  | .died _ => none

/-- Whether the run returned to its caller. -/
def Res.returned {α : Type} : Res α → Bool
  | .ret _ _ => true
  | .died _ => false

/-- Process exit through die (lines 50-57): the message goes to stderr,
which is not modelled, and the process ends where it stands. -/
def die {α : Type} (w : World) : Res α := .died w

/-- Outcome of the next system call, taken off the script. -/
def next_rc (w : World) : Rc × World :=
  match w.script with
  | [] => (.ok, w)
  | r :: s => (r, { w with script := s })

/-- A system call that transfers no data (open, lseek, fstat, close, ioctl,
malloc): it fails exactly when the script says error. -/
def sys_call (w : World) : Bool × World :=
  match next_rc w with
  | (.error, w1) => (false, w1)
  | (_, w1) => (true, w1)

/-- File descriptors of write_bootstream. -/
inductive Fd where
  | sysfd
  | ifd
  | ofd
  deriving DecidableEq, Repr

/-- Return of read(2): failure (with the flag errno == EINTR) or the bytes
transferred, whose number is the return value. -/
inductive ReadRc where
  | fail (eintr : Bool)
  | data (bytes : List Nat)

/-- Return of write(2): failure (with the flag errno == EINTR) or the number
of bytes taken. -/
inductive WriteRc where
  | fail (eintr : Bool)
  | wrote (k : Nat)

/-- Overwrite memory or file content: bytes go to offset off of buf. -/
def store (buf : List Nat) (off : Nat) (bytes : List Nat) : List Nat :=
  buf.take off ++ bytes ++ buf.drop (off + bytes.length)

/-- Call read(fd, _, count). -/
def sys_read (fd : Fd) (count : Nat) (w : World) : ReadRc × World :=
  match next_rc w with
  | (.eintr, w1) => (.fail true, w1)
  | (.error, w1) => (.fail false, w1)
  | (rc, w1) =>
    let k := match rc with
      | .part k => min k count
      | _ => count
    match fd with
    | .ifd => (.data (w1.image.take k), { w1 with image := w1.image.drop k })
    | .sysfd =>
      match w1.force_ro with
      | some c =>
        (.data ((c.drop w1.sys_pos).take k),
         { w1 with sys_pos := w1.sys_pos + ((c.drop w1.sys_pos).take k).length })
      | none => (.fail false, w1)
    | .ofd => (.fail false, w1)

/-- Call write(fd, data, data.length). -/
def sys_write (fd : Fd) (data : List Nat) (w : World) : WriteRc × World :=
  match next_rc w with
  | (.eintr, w1) => (.fail true, w1)
  | (.error, w1) => (.fail false, w1)
  | (rc, w1) =>
    let k := match rc with
      | .part k => min k data.length
      | _ => data.length
    match fd with
    | .ofd => (.wrote k, { w1 with out := w1.out ++ data.take k })
    | .sysfd =>
      match w1.force_ro with
      | some c =>
        (.wrote k, { w1 with force_ro := some (store c w1.sys_pos (data.take k)),
                             sys_pos := w1.sys_pos + k })
      | none => (.fail false, w1)
    | .ifd => (.fail false, w1)

/-! ### The script only shrinks: termination of the retry loops -/

theorem next_rc_script_le (w : World) : (next_rc w).2.script.length ≤ w.script.length := by
  unfold next_rc
  split
  · simp
  · next h => simp [h]

theorem sys_read_script_le (fd : Fd) (count : Nat) (w : World) :
    (sys_read fd count w).2.script.length ≤ w.script.length := by
  have h := next_rc_script_le w
  unfold sys_read
  split
  · next h1 => rw [h1] at h; exact h
  · next h1 => rw [h1] at h; exact h
  · next rc w1 _ _ h1 =>
    rw [h1] at h
    cases fd
    · dsimp only
      split <;> exact h
    · exact h
    · exact h

theorem sys_read_eintr_script_lt (fd : Fd) (count : Nat) (w : World)
    (h : (sys_read fd count w).1 = .fail true) :
    (sys_read fd count w).2.script.length < w.script.length := by
  unfold sys_read at h ⊢
  unfold next_rc at h ⊢
  cases hs : w.script with
  | nil =>
    simp only [hs] at h ⊢
    cases fd
    · dsimp only at h
      split at h <;> simp at h
    · simp at h
    · simp at h
  | cons r s =>
    simp only [hs] at h ⊢
    cases r
    · cases fd
      · dsimp only at h
        split at h <;> simp at h
      · simp at h
      · simp at h
    · simp
    · simp at h
    · cases fd
      · dsimp only at h
        split at h <;> simp at h
      · simp at h
      · simp at h

theorem sys_write_script_le (fd : Fd) (data : List Nat) (w : World) :
    (sys_write fd data w).2.script.length ≤ w.script.length := by
  have h := next_rc_script_le w
  unfold sys_write
  split
  · next h1 => rw [h1] at h; exact h
  · next h1 => rw [h1] at h; exact h
  · next rc w1 _ _ h1 =>
    rw [h1] at h
    cases fd
    · dsimp only
      split <;> exact h
    · exact h
    · exact h

theorem sys_write_eintr_script_lt (fd : Fd) (data : List Nat) (w : World)
    (h : (sys_write fd data w).1 = .fail true) :
    (sys_write fd data w).2.script.length < w.script.length := by
  unfold sys_write at h ⊢
  unfold next_rc at h ⊢
  cases hs : w.script with
  | nil =>
    simp only [hs] at h ⊢
    cases fd
    · dsimp only at h
      split at h <;> simp at h
    · simp at h
    · simp at h
  | cons r s =>
    simp only [hs] at h ⊢
    cases r
    · cases fd
      · dsimp only at h
        split at h <;> simp at h
      · simp at h
      · simp at h
    · simp
    · simp at h
    · cases fd
      · dsimp only at h
        split at h <;> simp at h
      · simp at h
      · simp at h

/-! ## read_or_die and write_or_die -/

/-- The while loop of read_or_die (lines 200-215). The pointer buf of the
source is the pair of a buffer and an offset into it; n, buf and count are
the loop variables. Returns n and the buffer as the reads left it. -/
def read_or_die_loop (fd : Fd) (buf : List Nat) (off count n : Nat) (w : World) :
    Res (Nat × List Nat) :=
  if count > 0 then
    match h : sys_read fd count w with
    | (.fail true, w1) => read_or_die_loop fd buf off count n w1
    | (.fail false, w1) => die w1
    | (.data bytes, w1) =>
      if bytes.length = 0 then
        .ret (n, buf) w1
      else
        read_or_die_loop fd (store buf off bytes) (off + bytes.length)
          (count - bytes.length) (n + bytes.length) w1
  else
    .ret (n, buf) w
termination_by w.script.length + count
decreasing_by
  · have h1 := sys_read_eintr_script_lt fd count w (by rw [h])
    rw [h] at h1
    simp only at h1
    omega
  · have h1 := sys_read_script_le fd count w
    rw [h] at h1
    simp only at h1
    omega

/-- Read as much as possible despite EINTR or partial reads, and die on
error: C function read_or_die (lines 197-217), reading into buf at off. -/
def read_or_die (fd : Fd) (buf : List Nat) (off count : Nat) (w : World) :
    Res (Nat × List Nat) :=
  read_or_die_loop fd buf off count 0 w

/-- The while loop of write_or_die (lines 224-238); data is what is left of
the buffer, its length is the loop variable count. -/
def write_or_die_loop (fd : Fd) (data : List Nat) (w : World) : Res Unit :=
  if data.length > 0 then
    match h : sys_write fd data w with
    | (.fail true, w1) => write_or_die_loop fd data w1
    | (.fail false, w1) => die w1
    | (.wrote k, w1) =>
      if k = 0 then
        die w1
      else
        write_or_die_loop fd (data.drop k) w1
  else
    .ret () w
termination_by w.script.length + data.length
decreasing_by
  · have h1 := sys_write_eintr_script_lt fd data w (by rw [h])
    rw [h] at h1
    simp only at h1
    omega
  · have h1 := sys_write_script_le fd data w
    rw [h] at h1
    simp only at h1
    simp only [List.length_drop]
    omega

/-- Write everything passed in despite EINTR or partial writes, and die on
error: C function write_or_die (lines 220-240). Returns the count. -/
def write_or_die (fd : Fd) (data : List Nat) (w : World) : Res Nat :=
  (write_or_die_loop fd data w).bind fun _ w1 => .ret data.length w1

/-! ## write_bootstream -/

/-- Return of open(2) on the force_ro entry. -/
inductive OpenRc where
  | fd
  | enoent
  | eother

/-- Call open(sysname, O_RDWR) on the force_ro entry of the device. -/
def sys_open_force_ro (w : World) : OpenRc × World :=
  match sys_call w with
  | (false, w1) => (.eother, w1)
  | (true, w1) =>
    match w1.force_ro with
    | none => (.enoent, w1)
    | some _ => (.fd, { w1 with sys_pos := 0 })

/-- Call lseek(sysfd, 0, SEEK_SET); true when it returns 0. -/
def sys_lseek0 (w : World) : Bool × World :=
  match sys_call w with
  | (false, w1) => (false, w1)
  | (true, w1) => (true, { w1 with sys_pos := 0 })

/-- Call open(bootfile, O_WRONLY | flags, 0666): from here on out holds the
bytes written through the new descriptor. -/
def sys_open_ofd (w : World) : Bool × World :=
  match sys_call w with
  | (false, w1) => (false, w1)
  | (true, w1) => (true, { w1 with out := [] })

/-- Call malloc(size): none for NULL, else a block of indeterminate content. -/
def malloc (size : Nat) (w : World) : Option (List Nat) × World :=
  match sys_call w with
  | (false, w1) => (none, w1)
  | (true, w1) => (some ((List.range size).map w1.heap), w1)

/-- Call memset(buf + off, c, n). -/
def memset (buf : List Nat) (off c n : Nat) : List Nat :=
  store buf off (List.replicate n c)

/-- The pattern `if (call(...) < 0) die(...)`. -/
def or_die (r : Bool × World) : Res Unit :=
  if r.1 then .ret () r.2 else die r.2

/-- ASCII code of the character 0. -/
def CHAR_0 : Nat := 48

/-- ASCII code of the character 1. -/
def CHAR_1 : Nat := 49

/-- First block of write_bootstream (lines 264-300): reset the force_ro
setting if need be. Returns whether sysfd is an open descriptor
(sysfd >= 0) afterwards. -/
def reset_force_ro (bootfile : List Char) (w : World) : Res Bool :=
  if bootfile.take 5 = ['/', 'd', 'e', 'v', '/'] then
    match sys_open_force_ro w with
    | (.fd, w1) =>
      (read_or_die .sysfd [0] 0 1 w1).bind fun r w2 =>
      if r.1 ≠ 1 then die w2
      else
        let status := r.2.getD 0 0
        if status = CHAR_1 then
          (or_die (sys_lseek0 w2)).bind fun _ w3 =>
          (write_or_die .sysfd [CHAR_0] w3).bind fun _ w4 =>
          .ret true w4
        else
          -- close(sysfd); sysfd = -1
          .ret false (sys_call w2).2
    | (.eother, w1) => die w1
    | (.enoent, w1) => .ret false w1
  else
    .ret false w

/-- What one pass of the copy loop put on the output: the values of the
locals segheader, seg_size and pad_size, and the seg_size + pad_size bytes
of buf handed to the last write_or_die. -/
structure Seg where
  segheader : Nat
  seg_size : Nat
  pad_size : Nat
  body : List Nat
  deriving DecidableEq, Repr

/-- The while loop of write_bootstream (lines 323-338), with bytes_left and
the content of buf as loop state. Returns the record of each pass, in
order. -/
def copy_loop (bytes_left : Nat) (buf : List Nat) (w : World) : Res (List Seg) :=
  if h : bytes_left > 0 then
    let seg_size := if bytes_left ≤ MAX_SEG_LEN then bytes_left else MAX_SEG_LEN
    let bytes_left1 := bytes_left - seg_size
    -- Generate the segment header.
    let pad_size := if seg_size % 8 ≠ 0 then 8 - seg_size % 8 else 0
    let segheader := gen_seg_header (if bytes_left1 = 0 then 1 else 0) 1 BOOT_FIFO_ADDR
      (seg_size + pad_size)
    (write_or_die .ofd (le64 segheader) w).bind fun _ w1 =>
    -- Copy the segment plus any padding.
    (read_or_die .ifd buf 0 seg_size w1).bind fun r w2 =>
    let buf1 := memset r.2 seg_size 0 pad_size
    (write_or_die .ofd (buf1.take (seg_size + pad_size)) w2).bind fun _ w3 =>
    (copy_loop bytes_left1 buf1 w3).bind fun segs w4 =>
    .ret ({ segheader := segheader, seg_size := seg_size, pad_size := pad_size,
            body := buf1.take (seg_size + pad_size) } :: segs) w4
  else
    .ret [] w
termination_by bytes_left
decreasing_by
  simp only [MAX_SEG_LEN, SEGMENT_HEADER_LEN]
  split <;> omega

/-- Last block of write_bootstream (lines 346-355): put back the force_ro
setting if need be. -/
def restore_force_ro (sysfd : Bool) (w : World) : Res Unit :=
  if sysfd then
    (or_die (sys_lseek0 w)).bind fun _ w1 =>
    (write_or_die .sysfd [CHAR_1] w1).bind fun _ w2 =>
    -- close(sysfd)
    .ret () (sys_call w2).2
  else
    .ret () w

/-- C function write_bootstream (lines 262-356). The bootstream file and the
output are the ones of the world; bootfile is the path of the output, of
which the source inspects the first five characters. The argument flags
only selects how the output is opened (O_CREAT | O_TRUNC or nothing) and is
left out: the world records the bytes written through ofd, not where they
land. Returns the record of the segments it wrote. -/
def write_bootstream (bootfile : List Char) (w : World) : Res (List Seg) :=
  (reset_force_ro bootfile w).bind fun sysfd w1 =>
  -- Copy the bootstream to the bootfile device
  (or_die (sys_call w1)).bind fun _ w2 =>        -- ifd = open(bootstream, O_RDONLY)
  (or_die (sys_open_ofd w2)).bind fun _ w3 =>    -- ofd = open(bootfile, O_WRONLY | flags)
  (or_die (sys_call w3)).bind fun _ w4 =>        -- fstat(ifd, &st)
  let bytes_left := w4.st_size
  match malloc MAX_SEG_LEN w4 with
  | (none, w5) => die w5
  | (some buf, w5) =>
    -- Write the bootstream header word first.
    let header := 0
    (write_or_die .ofd (le64 header) w5).bind fun _ w6 =>
    (copy_loop bytes_left buf w6).bind fun segs w7 =>
    (or_die (sys_call w7)).bind fun _ w8 =>      -- close(ifd)
    (or_die (sys_call w8)).bind fun _ w9 =>      -- close(ofd)
    (restore_force_ro sysfd w9).bind fun _ w10 =>
    .ret segs w10

/-! ## Boot partition register -/

/-- C struct mmc_ioc_cmd of linux/mmc/ioctl.h, with the fields the program
sets. -/
structure mmc_ioc_cmd where
  write_flag : Nat
  opcode : Nat
  arg : Nat
  flags : Nat
  blksz : Nat
  blocks : Nat
  /-- whether mmc_ioc_cmd_set_data pointed the command at the buffer ext_csd -/
  data_ptr : Bool

/-- The eMMC device behind ioctl(mmc_fd, MMC_IOC_CMD, idata), as far as the
program uses it. SEND_EXT_CSD transfers blksz * blocks bytes of the register
block into the data buffer. SWITCH decodes its argument as access mode (bits
25-24), byte index (bits 23-16) and value (bits 15-8); in write-byte mode the
device stores the value at the index and changes nothing else. -/
def mmc_ioctl (idata : mmc_ioc_cmd) (w : World) : Bool × World :=
  match sys_call w with
  | (false, w1) => (false, w1)
  | (true, w1) =>
    if idata.opcode = MMC_SEND_EXT_CSD then
      if idata.data_ptr then
        let block := (List.range (idata.blksz * idata.blocks)).map w1.card
        (true, { w1 with ext_csd := store w1.ext_csd 0 block })
      else (true, w1)
    else if idata.opcode = MMC_SWITCH then
      let access := (idata.arg >>> 24) &&& 0x3
      let index := (idata.arg >>> 16) &&& 0xff
      let value := (idata.arg >>> 8) &&& 0xff
      if access = MMC_SWITCH_MODE_WRITE_BYTE then
        (true, { w1 with card := fun i => if i = index then value else w1.card i })
      else (true, w1)
    else (true, w1)

/-- Run an MMC_IOC_CMD ioctl on mmc_path: C function mmc_command (lines
95-106). -/
def mmc_command (idata : mmc_ioc_cmd) (w : World) : Res Unit :=
  (if w.mmc_fd then .ret () w
   else (or_die (sys_call w)).bind fun _ w1 => .ret () { w1 with mmc_fd := true }).bind
  fun _ w2 => or_die (mmc_ioctl idata w2)

/-- Return the current partition (0 or 1) that we will boot from: C function
get_boot_partition (lines 109-127). -/
def get_boot_partition (w : World) : Res Int :=
  let idata : mmc_ioc_cmd := {
    write_flag := 0,
    opcode := MMC_SEND_EXT_CSD,
    arg := 0,
    flags := MMC_RSP_SPI_R1 ||| MMC_RSP_R1 ||| MMC_CMD_ADTC,
    blksz := EMMC_BLOCK_SIZE,
    blocks := 1,
    data_ptr := true }
  (mmc_command idata w).bind fun _ w1 =>
  -- Subtract one to adjust for hardware 1-based numbering.
  .ret ((((w1.ext_csd.getD EXT_CSD_PART_CONFIG 0 >>> 3) &&& 0x7 : Nat) : Int) - 1) w1

/-- The command set_boot_partition builds (lines 132-141). -/
def set_boot_partition_cmd (part : Int) : mmc_ioc_cmd :=
  let value := (to_uint (part + 1) &&& 0x7) <<< 3  -- Adjust for 1-based numbering
  { write_flag := 1,
    opcode := MMC_SWITCH,
    arg := ((MMC_SWITCH_MODE_WRITE_BYTE <<< 24) |||
            (EXT_CSD_PART_CONFIG <<< 16) |||
            (value <<< 8) |||
            EXT_CSD_CMD_SET_NORMAL) % 2 ^ 32,
    flags := MMC_RSP_SPI_R1B ||| MMC_RSP_R1B ||| MMC_CMD_AC,
    blksz := 0,
    blocks := 0,
    data_ptr := false }

/-- Set which partition to boot from: C function set_boot_partition (lines
130-144). -/
def set_boot_partition (part : Int) (w : World) : Res Unit :=
  mmc_command (set_boot_partition_cmd part) w

/-! ## Reset watchdog -/

/-- Decimal digits of a natural number, most significant first. -/
def dec_digits (n : Nat) : List Char :=
  if n < 10 then [Nat.digitChar n] else dec_digits (n / 10) ++ [Nat.digitChar (n % 10)]
termination_by n
decreasing_by omega

/-- Narrowing of an integer value to a C int (32 bits, two's complement),
as in the initialisation of an int from a long. -/
def to_int (x : Int) : Int := (x + 2 ^ 31) % 2 ^ 32 - 2 ^ 31

/-- Value the C library converts a decimal numeral of value x to before it
is stored: x itself, or LONG_MAX or LONG_MIN (64 bits) when x is out of the
range of long, as strtol does. -/
def clamp_long (x : Int) : Int :=
  if x < -(2 ^ 63) then -(2 ^ 63) else if 2 ^ 63 - 1 < x then 2 ^ 63 - 1 else x

/-- C library function isspace in the C locale: space, tab, newline,
vertical tab, form feed and carriage return. -/
def isspace (c : Char) : Bool := c.toNat = 32 || (9 ≤ c.toNat && c.toNat ≤ 13)

/-- Text printf produces for the conversion %d of an int. -/
def printf_d (n : Int) : List Char :=
  if n < 0 then '-' :: dec_digits n.natAbs else dec_digits n.toNat

/-- Value of the leading run of decimal digits, continuing from acc. -/
def scan_digits (acc : Nat) : List Char → Nat
  | [] => acc
  | c :: cs =>
    if c.isDigit then scan_digits (acc * 10 + (c.toNat - '0'.toNat)) cs else acc

/-- What fscanf stores into an int for the conversion %d: white space is
skipped, then an optional sign and at least one digit are read; none when
no integer is found (fscanf then returns something other than 1). The value
read is converted as strtol converts it and narrowed to the 32 bits of the
int it is stored in, so the text 2147483648 gives -2147483648. -/
def scanf_d (s : List Char) : Option Int :=
  match s.dropWhile isspace with
  | [] => none
  | '-' :: cs =>
    match cs with
    | [] => none
    | c :: _ =>
      if c.isDigit then some (to_int (clamp_long (-(scan_digits 0 cs : Int)))) else none
  | '+' :: cs =>
    match cs with
    | [] => none
    | c :: _ =>
      if c.isDigit then some (to_int (clamp_long (scan_digits 0 cs : Int))) else none
  | c :: cs =>
    if c.isDigit then some (to_int (clamp_long (scan_digits 0 (c :: cs) : Int))) else none

/-- C function get_watchdog (lines 146-156). The value returned is an int:
scanf_d gives it in the range of int. -/
def get_watchdog (w : World) : Res Int :=
  -- fopen(POST_RESET_WDOG_PATH, "r")
  match sys_call w with
  | (false, w1) => die w1
  | (true, w1) =>
    match w1.post_reset_wdog with
    | none => die w1
    | some text =>
      match scanf_d text with
      | none => die w1
      | some watchdog => .ret watchdog w1

/-- C function set_watchdog (lines 158-166). The parameter interval is a C
int: the value passed is taken in the range of int. -/
def set_watchdog (interval : Int) (w : World) : Res Unit :=
  -- fopen(POST_RESET_WDOG_PATH, "w")
  match sys_call w with
  | (false, w1) => die w1
  | (true, w1) =>
    match w1.post_reset_wdog with
    | none => die w1
    | some _ =>
      -- fprintf(f, "%d\n", interval)
      match sys_call { w1 with post_reset_wdog := some [] } with
      | (false, w2) => die w2
      | (true, w2) =>
        .ret () { w2 with post_reset_wdog := some (printf_d (to_int interval) ++ ['\n']) }

/-- C function set_second_reset_action (lines 168-176). -/
def set_second_reset_action (action : List Char) (w : World) : Res Unit :=
  -- fopen(SECOND_RESET_ACTION_PATH, "w")
  match sys_call w with
  | (false, w1) => die w1
  | (true, w1) =>
    match w1.second_reset_action with
    | none => die w1
    | some _ =>
      -- fprintf(f, "%s\n", action)
      match sys_call { w1 with second_reset_action := some [] } with
      | (false, w2) => die w2
      | (true, w2) => .ret () { w2 with second_reset_action := some (action ++ ['\n']) }

/-- The branch of main for --watchdog-swap (lines 505-514), from the value
parsed on: parsed is the long that strtol returned for a well-formed
argument, which line 509 narrows to the int watchdog. -/
def main_watchdog_swap (parsed : Int) (w : World) : Res Unit :=
  -- Enable reset watchdog to swap eMMC on reset after watchdog interval
  let watchdog := to_int parsed
  (set_watchdog watchdog w).bind fun _ w1 =>
  set_second_reset_action "swap_emmc".toList w1

/-- The branch of main for --nowatchdog-swap (lines 516-521). -/
def main_watchdog_disable (w : World) : Res Unit :=
  -- Disable reset watchdog and don't adjust reset actions at reset time
  (set_watchdog 0 w).bind fun _ w1 =>
  set_second_reset_action "none".toList w1

/-! ## Notions used to state the properties -/

/-- Script on which no call fails fatally: it holds no error and no transfer
of zero bytes (on which write_or_die dies and read_or_die stops as at end of
file). Interrupted calls and partial transfers are allowed. -/
def clean (s : List Rc) : Prop := ∀ r ∈ s, r ≠ Rc.error ∧ r ≠ Rc.part 0

/-- Bytes one pass of the copy loop puts on the output. -/
def Seg.bytes (s : Seg) : List Nat := le64 s.segheader ++ s.body

/-- Records the copy loop produces when no call fails, as a function of
bytes_left, the buffer and the bytes the bootstream still delivers. -/
def frames_of (bytes_left : Nat) (buf : List Nat) (image : List Nat) : List Seg :=
  if h : bytes_left > 0 then
    let seg_size := if bytes_left ≤ MAX_SEG_LEN then bytes_left else MAX_SEG_LEN
    let bytes_left1 := bytes_left - seg_size
    let pad_size := if seg_size % 8 ≠ 0 then 8 - seg_size % 8 else 0
    let segheader := gen_seg_header (if bytes_left1 = 0 then 1 else 0) 1 BOOT_FIFO_ADDR
      (seg_size + pad_size)
    let buf1 := memset (store buf 0 (image.take seg_size)) seg_size 0 pad_size
    { segheader := segheader, seg_size := seg_size, pad_size := pad_size,
      body := buf1.take (seg_size + pad_size) } ::
      frames_of bytes_left1 buf1 (image.drop seg_size)
  else
    []
termination_by bytes_left
decreasing_by
  simp only [MAX_SEG_LEN, SEGMENT_HEADER_LEN]
  split <;> omega

/-- The path names a device node, as the source tests it. -/
def is_dev (bootfile : List Char) : Prop := bootfile.take 5 = ['/', 'd', 'e', 'v', '/']

instance (bootfile : List Char) : Decidable (is_dev bootfile) := by
  unfold is_dev; infer_instance

/-- The buffer write_bootstream gets from malloc. -/
def buf0 (w : World) : List Nat := (List.range MAX_SEG_LEN).map w.heap

/-- Padding the copy loop adds to a segment of seg_size bytes. -/
def pad_of (seg_size : Nat) : Nat := if seg_size % 8 ≠ 0 then 8 - seg_size % 8 else 0

/-- Size of the next segment when bytes_left bytes remain. -/
def seg_of (bytes_left : Nat) : Nat :=
  if bytes_left ≤ MAX_SEG_LEN then bytes_left else MAX_SEG_LEN

/-- Frame length in bytes as the 17-bit field gives it. -/
def frame_len (h : Nat) : Nat := 8 * (h % 2 ^ 17)

/-- Frame length in bytes when a field of zero stands for 2^17 words. -/
def frame_len_wrap (h : Nat) : Nat := if h % 2 ^ 17 = 0 then 2 ^ 20 else 8 * (h % 2 ^ 17)

/-- Decoder of the round-trip property, after the stream header. The source
has no decoder; this one follows the words of the property: read an 8-byte
segment header, take the frame whose length flen gives for it, and stop
after the header whose end flag (bit 63) is set. Returns the content of each
frame (payload and padding), none when the stream is malformed: too short
for a header or for the frame, or a frame shorter than its header. -/
def spec_decode_segments (flen : Nat → Nat) (stream : List Nat) : Option (List (List Nat)) :=
  if stream.length < 8 then none
  else if flen (of_le64 (stream.take 8)) < 8 then none
  else if stream.length < flen (of_le64 (stream.take 8)) then none
  else if (of_le64 (stream.take 8)).testBit 63 then
    some [(stream.drop 8).take (flen (of_le64 (stream.take 8)) - 8)]
  else
    (spec_decode_segments flen (stream.drop (flen (of_le64 (stream.take 8))))).map
      ((stream.drop 8).take (flen (of_le64 (stream.take 8)) - 8) :: ·)
termination_by stream.length
decreasing_by
  simp only [List.length_drop]
  omega

/-- Decoder of the round-trip property: skip the 8-byte stream header, then
decode the segments. -/
def spec_decode (flen : Nat → Nat) (stream : List Nat) : Option (List (List Nat)) :=
  if stream.length < 8 then none else spec_decode_segments flen (stream.drop 8)

instance (s : List Rc) : Decidable (clean s) := by
  unfold clean; infer_instance

/-- A world for examples: the given script, force_ro entry, bootstream
content and st_size; the output empty, fresh memory filled with 0xEE, the
eMMC registers zero and both watchdog entries present and empty. -/
def example_world (script : List Rc) (force_ro : Option (List Nat)) (image : List Nat)
    (st_size : Nat) : World :=
  { script := script, force_ro := force_ro, sys_pos := 0, image := image, st_size := st_size,
    out := [], heap := fun _ => 0xEE, mmc_fd := false, card := fun _ => 0, ext_csd := [],
    post_reset_wdog := some [], second_reset_action := some [] }

/-- Path of a boot partition device. -/
def dev_path : List Char := "/dev/mmcblk0boot1".toList

/-! ## System calls in a world without fatal errors -/

theorem clean_of_subset {s t : List Rc} (h : clean t) (hs : ∀ r ∈ s, r ∈ t) : clean s :=
  fun r hr => h r (hs r hr)

theorem store_nil (buf : List Nat) (off : Nat) : store buf off [] = buf := by
  simp [store]

theorem store_zero (buf bytes : List Nat) : store buf 0 bytes = bytes ++ buf.drop bytes.length := by
  simp [store]

theorem store_store (buf : List Nat) (off : Nat) (c1 c2 : List Nat) (h : off ≤ buf.length) :
    store (store buf off c1) (off + c1.length) c2 = store buf off (c1 ++ c2) := by
  have hA : (buf.take off ++ c1).length = off + c1.length := by
    simp [List.length_take, Nat.min_eq_left h]
  unfold store
  have h1 : List.take (off + c1.length) (buf.take off ++ c1 ++ buf.drop (off + c1.length))
      = buf.take off ++ c1 := List.take_left' hA
  have h2 : List.drop (off + c1.length + c2.length)
      (buf.take off ++ c1 ++ buf.drop (off + c1.length)) = buf.drop (off + (c1 ++ c2).length) := by
    rw [← hA, List.drop_append, List.drop_drop, hA]
    congr 1
    simp only [List.length_append]
    omega
  rw [h1, h2]
  simp

theorem store_length_ge (buf : List Nat) (off : Nat) (c : List Nat) (h : off ≤ buf.length) :
    off + c.length ≤ (store buf off c).length := by
  simp [store, List.length_take, Nat.min_eq_left h]

theorem next_rc_nil (w : World) (h : w.script = []) : next_rc w = (.ok, w) := by
  simp [next_rc, h]

theorem next_rc_cons (w : World) (r : Rc) (s : List Rc) (h : w.script = r :: s) :
    next_rc w = (r, { w with script := s }) := by
  simp [next_rc, h]

/-- In a clean world a call that moves no data succeeds and only uses up script. -/
theorem sys_call_clean (w : World) (hc : clean w.script) :
    ∃ s, (∀ r ∈ s, r ∈ w.script) ∧ sys_call w = (true, { w with script := s }) := by
  cases hs : w.script with
  | nil =>
    refine ⟨[], by simp, ?_⟩
    simp [sys_call, next_rc_nil w hs]
    cases w; simp_all
  | cons r s =>
    refine ⟨s, fun r hr => by simp [hr], ?_⟩
    have hr := hc r (by simp [hs])
    simp only [sys_call, next_rc_cons w r s hs]
    cases r <;> simp_all

/-- What read(2) on the bootstream does in a clean world. -/
theorem sys_read_ifd_clean (count : Nat) (w : World) (hc : clean w.script) (hpos : 0 < count) :
    ∃ s, (∀ r ∈ s, r ∈ w.script) ∧
      (sys_read .ifd count w = (.fail true, { w with script := s }) ∨
       ∃ k, 1 ≤ k ∧ k ≤ count ∧
         sys_read .ifd count w =
           (.data (w.image.take k), { w with script := s, image := w.image.drop k })) := by
  cases hs : w.script with
  | nil =>
    refine ⟨[], by simp, Or.inr ⟨count, hpos, le_refl _, ?_⟩⟩
    simp only [sys_read, next_rc_nil w hs]
    cases w; simp_all
  | cons r s =>
    refine ⟨s, fun r hr => by simp [hr], ?_⟩
    have hr := hc r (by simp [hs])
    simp only [sys_read, next_rc_cons w r s hs]
    cases r with
    | ok => exact Or.inr ⟨count, hpos, le_refl _, rfl⟩
    | eintr => exact Or.inl rfl
    | error => simp at hr
    | part k =>
      refine Or.inr ⟨min k count, ?_, Nat.min_le_right _ _, rfl⟩
      have : k ≠ 0 := fun h0 => hr.2 (by rw [h0])
      omega

theorem read_or_die_loop_zero (fd : Fd) (buf : List Nat) (off n : Nat) (w : World) :
    read_or_die_loop fd buf off 0 n w = .ret (n, buf) w := by
  rw [read_or_die_loop]; simp

theorem read_or_die_loop_eintr (fd : Fd) (buf : List Nat) (off count n : Nat) (w w1 : World)
    (hcount : 0 < count) (h : sys_read fd count w = (.fail true, w1)) :
    read_or_die_loop fd buf off count n w = read_or_die_loop fd buf off count n w1 := by
  rw [read_or_die_loop]
  simp only [gt_iff_lt, hcount, if_true]
  split
  · next w2 heq => rw [h] at heq; injection heq with _ h3; subst h3; rfl
  · next w2 heq => rw [h] at heq; simp at heq
  · next bytes w2 heq => rw [h] at heq; simp at heq

theorem read_or_die_loop_error (fd : Fd) (buf : List Nat) (off count n : Nat) (w w1 : World)
    (hcount : 0 < count) (h : sys_read fd count w = (.fail false, w1)) :
    read_or_die_loop fd buf off count n w = .died w1 := by
  rw [read_or_die_loop]
  simp only [gt_iff_lt, hcount, if_true]
  split
  · next w2 heq => rw [h] at heq; simp at heq
  · next w2 heq => rw [h] at heq; injection heq with _ h3; subst h3; rfl
  · next bytes w2 heq => rw [h] at heq; simp at heq

theorem read_or_die_loop_data (fd : Fd) (buf : List Nat) (off count n : Nat) (w w1 : World)
    (bytes : List Nat) (hcount : 0 < count) (h : sys_read fd count w = (.data bytes, w1)) :
    read_or_die_loop fd buf off count n w =
      if bytes.length = 0 then .ret (n, buf) w1
      else read_or_die_loop fd (store buf off bytes) (off + bytes.length)
        (count - bytes.length) (n + bytes.length) w1 := by
  rw [read_or_die_loop]
  simp only [gt_iff_lt, hcount, if_true]
  split
  · next w2 heq => rw [h] at heq; simp at heq
  · next w2 heq => rw [h] at heq; simp at heq
  · next bytes2 w2 heq =>
    rw [h] at heq
    injection heq with h2 h3
    injection h2 with h2
    subst h2 h3
    rfl

theorem read_or_die_loop_ifd (buf : List Nat) (off count n : Nat) (w : World) :
    clean w.script → off ≤ buf.length →
    ∃ s, (∀ r ∈ s, r ∈ w.script) ∧
      read_or_die_loop .ifd buf off count n w =
        .ret (n + min count w.image.length, store buf off (w.image.take count))
          { w with script := s, image := w.image.drop count } := by
  induction buf, off, count, n, w using read_or_die_loop.induct Fd.ifd with
  | case1 buf off count n w hcount w1 h ih =>
    intro hc hoff
    obtain ⟨s, hsub, hrd⟩ := sys_read_ifd_clean count w hc hcount
    rcases hrd with hrd | ⟨k, _, _, hrd⟩
    · rw [hrd] at h
      have hw1 : w1 = { w with script := s } := by injection h with _ h2; exact h2.symm
      subst hw1
      obtain ⟨s2, hsub2, h2⟩ := ih (clean_of_subset hc hsub) hoff
      refine ⟨s2, fun r hr => hsub r (hsub2 r hr), ?_⟩
      rw [read_or_die_loop_eintr _ _ _ _ _ _ _ hcount hrd]
      exact h2
    · rw [hrd] at h; simp at h
  | case2 buf off count n w hcount w1 h =>
    intro hc hoff
    obtain ⟨s, hsub, hrd⟩ := sys_read_ifd_clean count w hc hcount
    rcases hrd with hrd | ⟨k, _, _, hrd⟩
    · rw [hrd] at h; simp at h
    · rw [hrd] at h; simp at h
  | case3 buf off count n w hcount bytes w1 h hlen =>
    intro hc hoff
    obtain ⟨s, hsub, hrd⟩ := sys_read_ifd_clean count w hc hcount
    rcases hrd with hrd | ⟨k, hk1, hk2, hrd⟩
    · rw [hrd] at h; simp at h
    · refine ⟨s, hsub, ?_⟩
      rw [read_or_die_loop_data _ _ _ _ _ _ _ _ hcount hrd]
      rw [hrd] at h
      injection h with h2 h3
      injection h2 with h2
      subst h2
      rw [if_pos hlen]
      have himg : w.image = [] := by
        simp only [List.length_take] at hlen
        have : w.image.length = 0 := by omega
        exact List.length_eq_zero.mp this
      simp [himg, store_nil]
  | case4 buf off count n w hcount bytes w1 h hlen ih =>
    intro hc hoff
    obtain ⟨s, hsub, hrd⟩ := sys_read_ifd_clean count w hc hcount
    rcases hrd with hrd | ⟨k, hk1, hk2, hrd⟩
    · rw [hrd] at h; simp at h
    · rw [hrd] at h
      injection h with h2 h3
      injection h2 with h2
      subst h2 h3
      obtain ⟨s2, hsub2, h2⟩ := ih (clean_of_subset hc hsub)
        (store_length_ge buf off _ hoff)
      refine ⟨s2, fun r hr => hsub r (hsub2 r hr), ?_⟩
      rw [read_or_die_loop_data _ _ _ _ _ _ _ _ hcount hrd, if_neg hlen, h2]
      simp only [store_store _ _ _ _ hoff]
      have hlen2 : (List.take k w.image).length = min k w.image.length := List.length_take _ _
      have e1 : List.take k w.image ++ List.take (count - (List.take k w.image).length)
          (List.drop k w.image) = List.take count w.image := by
        rw [hlen2]
        by_cases hkl : k ≤ w.image.length
        · rw [Nat.min_eq_left hkl]
          have : count = k + (count - k) := by omega
          conv_rhs => rw [this, List.take_add]
        · have hkl2 : w.image.length ≤ k := by omega
          rw [List.take_of_length_le hkl2, List.drop_of_length_le hkl2,
            List.take_of_length_le (by omega : w.image.length ≤ count)]
          simp
      have e2 : List.drop (count - (List.take k w.image).length) (List.drop k w.image)
          = List.drop count w.image := by
        rw [List.drop_drop, hlen2]
        by_cases hkl : k ≤ w.image.length
        · rw [Nat.min_eq_left hkl]; congr 1; omega
        · have hkl2 : w.image.length ≤ k := by omega
          rw [List.drop_of_length_le (by omega), List.drop_of_length_le (by omega)]
      have e3 : n + (List.take k w.image).length +
          min (count - (List.take k w.image).length) (List.drop k w.image).length
          = n + min count w.image.length := by
        rw [hlen2, List.length_drop]
        omega
      simp only [e1, e2, e3]
  | case5 buf off count n w hcount =>
    intro hc hoff
    have h0 : count = 0 := by omega
    subst h0
    refine ⟨w.script, fun r hr => hr, ?_⟩
    rw [read_or_die_loop_zero]
    simp [store_nil]

theorem write_or_die_loop_nil (fd : Fd) (w : World) :
    write_or_die_loop fd [] w = .ret () w := by
  rw [write_or_die_loop]; simp

theorem write_or_die_loop_eintr (fd : Fd) (data : List Nat) (w w1 : World)
    (hcount : 0 < data.length) (h : sys_write fd data w = (.fail true, w1)) :
    write_or_die_loop fd data w = write_or_die_loop fd data w1 := by
  rw [write_or_die_loop]
  simp only [gt_iff_lt, hcount, if_true]
  split
  · next w2 heq => rw [h] at heq; injection heq with _ h3; subst h3; rfl
  · next w2 heq => rw [h] at heq; simp at heq
  · next k w2 heq => rw [h] at heq; simp at heq

theorem write_or_die_loop_error (fd : Fd) (data : List Nat) (w w1 : World)
    (hcount : 0 < data.length) (h : sys_write fd data w = (.fail false, w1)) :
    write_or_die_loop fd data w = .died w1 := by
  rw [write_or_die_loop]
  simp only [gt_iff_lt, hcount, if_true]
  split
  · next w2 heq => rw [h] at heq; simp at heq
  · next w2 heq => rw [h] at heq; injection heq with _ h3; subst h3; rfl
  · next k w2 heq => rw [h] at heq; simp at heq

theorem write_or_die_loop_wrote (fd : Fd) (data : List Nat) (w w1 : World) (k : Nat)
    (hcount : 0 < data.length) (h : sys_write fd data w = (.wrote k, w1)) :
    write_or_die_loop fd data w =
      if k = 0 then .died w1 else write_or_die_loop fd (data.drop k) w1 := by
  rw [write_or_die_loop]
  simp only [gt_iff_lt, hcount, if_true]
  split
  · next w2 heq => rw [h] at heq; simp at heq
  · next w2 heq => rw [h] at heq; simp at heq
  · next k2 w2 heq =>
    rw [h] at heq
    injection heq with h2 h3
    injection h2 with h2
    subst h2 h3
    rfl

/-- What write(2) on the output does in a clean world. -/
theorem sys_write_ofd_clean (data : List Nat) (w : World) (hc : clean w.script)
    (hpos : 0 < data.length) :
    ∃ s, (∀ r ∈ s, r ∈ w.script) ∧
      (sys_write .ofd data w = (.fail true, { w with script := s }) ∨
       ∃ k, 1 ≤ k ∧ k ≤ data.length ∧
         sys_write .ofd data w =
           (.wrote k, { w with script := s, out := w.out ++ data.take k })) := by
  cases hs : w.script with
  | nil =>
    refine ⟨[], by simp, Or.inr ⟨data.length, hpos, le_refl _, ?_⟩⟩
    simp only [sys_write, next_rc_nil w hs]
    cases w; simp_all
  | cons r s =>
    refine ⟨s, fun r hr => by simp [hr], ?_⟩
    have hr := hc r (by simp [hs])
    simp only [sys_write, next_rc_cons w r s hs]
    cases r with
    | ok => exact Or.inr ⟨data.length, hpos, le_refl _, rfl⟩
    | eintr => exact Or.inl rfl
    | error => simp at hr
    | part k =>
      refine Or.inr ⟨min k data.length, ?_, Nat.min_le_right _ _, rfl⟩
      have : k ≠ 0 := fun h0 => hr.2 (by rw [h0])
      omega

theorem write_or_die_loop_ofd (data : List Nat) (w : World) :
    clean w.script →
    ∃ s, (∀ r ∈ s, r ∈ w.script) ∧
      write_or_die_loop .ofd data w = .ret () { w with script := s, out := w.out ++ data } := by
  induction data, w using write_or_die_loop.induct Fd.ofd with
  | case1 data w hcount w1 h ih =>
    intro hc
    obtain ⟨s, hsub, hwr⟩ := sys_write_ofd_clean data w hc hcount
    rcases hwr with hwr | ⟨k, _, _, hwr⟩
    · rw [hwr] at h
      have hw1 : w1 = { w with script := s } := by injection h with _ h2; exact h2.symm
      subst hw1
      obtain ⟨s2, hsub2, h2⟩ := ih (clean_of_subset hc hsub)
      refine ⟨s2, fun r hr => hsub r (hsub2 r hr), ?_⟩
      rw [write_or_die_loop_eintr _ _ _ _ hcount hwr]
      exact h2
    · rw [hwr] at h; simp at h
  | case2 data w hcount w1 h =>
    intro hc
    obtain ⟨s, hsub, hwr⟩ := sys_write_ofd_clean data w hc hcount
    rcases hwr with hwr | ⟨k, _, _, hwr⟩
    · rw [hwr] at h; simp at h
    · rw [hwr] at h; simp at h
  | case3 data w hcount w1 h =>
    intro hc
    obtain ⟨s, hsub, hwr⟩ := sys_write_ofd_clean data w hc hcount
    rcases hwr with hwr | ⟨k2, hk1, hk2, hwr⟩
    · rw [hwr] at h; simp at h
    · rw [hwr] at h
      injection h with h2 h3
      injection h2 with h2
      omega
  | case4 data w hcount k w1 h hk ih =>
    intro hc
    obtain ⟨s, hsub, hwr⟩ := sys_write_ofd_clean data w hc hcount
    rcases hwr with hwr | ⟨k2, hk1, hk2, hwr⟩
    · rw [hwr] at h; simp at h
    · rw [hwr] at h
      injection h with h2 h3
      injection h2 with h2
      subst h2 h3
      obtain ⟨s2, hsub2, h2⟩ := ih (clean_of_subset hc hsub)
      refine ⟨s2, fun r hr => hsub r (hsub2 r hr), ?_⟩
      rw [write_or_die_loop_wrote _ _ _ _ _ hcount hwr, if_neg hk, h2]
      simp [List.append_assoc]
  | case5 data w hcount =>
    intro hc
    have h0 : data = [] := List.length_eq_zero.mp (by omega)
    subst h0
    refine ⟨w.script, fun r hr => hr, ?_⟩
    rw [write_or_die_loop_nil]
    simp

theorem write_or_die_ofd (data : List Nat) (w : World) (hc : clean w.script) :
    ∃ s, (∀ r ∈ s, r ∈ w.script) ∧
      write_or_die .ofd data w =
        .ret data.length { w with script := s, out := w.out ++ data } := by
  obtain ⟨s, hsub, h⟩ := write_or_die_loop_ofd data w hc
  exact ⟨s, hsub, by simp [write_or_die, h, Res.bind]⟩

theorem read_or_die_ifd (buf : List Nat) (count : Nat) (w : World) (hc : clean w.script) :
    ∃ s, (∀ r ∈ s, r ∈ w.script) ∧
      read_or_die .ifd buf 0 count w =
        .ret (min count w.image.length, store buf 0 (w.image.take count))
          { w with script := s, image := w.image.drop count } := by
  obtain ⟨s, hsub, h⟩ := read_or_die_loop_ifd buf 0 count 0 w hc (Nat.zero_le _)
  exact ⟨s, hsub, by simp [read_or_die, h]⟩

theorem frames_of_zero (buf image : List Nat) : frames_of 0 buf image = [] := by
  rw [frames_of]; simp

theorem copy_loop_clean (bytes_left : Nat) : ∀ (buf : List Nat) (w : World),
    clean w.script →
    ∃ s, (∀ r ∈ s, r ∈ w.script) ∧
      copy_loop bytes_left buf w =
        .ret (frames_of bytes_left buf w.image)
          { w with script := s, image := w.image.drop bytes_left,
                   out := w.out ++ (frames_of bytes_left buf w.image).flatMap Seg.bytes } := by
  induction bytes_left using Nat.strong_induction_on with
  | _ bl ih =>
    intro buf w hc
    by_cases hbl : bl > 0
    · rw [copy_loop, frames_of]
      simp only [hbl, dite_true]
      have hlt : bl - (if bl ≤ MAX_SEG_LEN then bl else MAX_SEG_LEN) < bl := by
        simp only [MAX_SEG_LEN, SEGMENT_HEADER_LEN]
        split <;> omega
      have hle : (if bl ≤ MAX_SEG_LEN then bl else MAX_SEG_LEN) ≤ bl := by
        split <;> omega
      generalize (if bl ≤ MAX_SEG_LEN then bl else MAX_SEG_LEN) = seg at hlt hle ⊢
      generalize (if seg % 8 ≠ 0 then 8 - seg % 8 else 0) = pad
      generalize gen_seg_header (if bl - seg = 0 then 1 else 0) 1 BOOT_FIFO_ADDR (seg + pad) = hdr
      obtain ⟨s1, hsub1, h1⟩ := write_or_die_ofd (le64 hdr) w hc
      rw [h1]
      simp only [Res.bind]
      obtain ⟨s2, hsub2, h2⟩ := read_or_die_ifd buf seg
        { w with script := s1, out := w.out ++ le64 hdr } (clean_of_subset hc hsub1)
      rw [h2]
      simp only []
      generalize memset (store buf 0 (List.take seg w.image)) seg 0 pad = buf1
      obtain ⟨s3, hsub3, h3⟩ := write_or_die_ofd (buf1.take (seg + pad))
        { w with script := s2, image := w.image.drop seg, out := w.out ++ le64 hdr }
        (clean_of_subset hc (fun r hr => hsub1 r (hsub2 r hr)))
      rw [h3]
      simp only []
      obtain ⟨s4, hsub4, h4⟩ := ih (bl - seg) hlt buf1
        { w with script := s3, image := w.image.drop seg,
                 out := w.out ++ le64 hdr ++ buf1.take (seg + pad) }
        (clean_of_subset hc (fun r hr => hsub1 r (hsub2 r (hsub3 r hr))))
      rw [h4]
      refine ⟨s4, fun r hr => hsub1 r (hsub2 r (hsub3 r (hsub4 r hr))), ?_⟩
      simp only [List.drop_drop, List.flatMap_cons, Seg.bytes, List.append_assoc]
      have : seg + (bl - seg) = bl := by omega
      rw [this]
    · have h0 : bl = 0 := by omega
      subst h0
      refine ⟨w.script, fun r hr => hr, ?_⟩
      rw [copy_loop, frames_of_zero]
      simp

theorem read_or_die_sysfd_one (x b : Nat) (c : List Nat) :
    ∀ (s : List Rc) (w : World), w.script = s → clean s → w.force_ro = some (b :: c) →
      w.sys_pos = 0 →
      ∃ s1, (∀ r ∈ s1, r ∈ s) ∧
        read_or_die .sysfd [x] 0 1 w = .ret (1, [b]) { w with script := s1, sys_pos := 1 } := by
  intro s
  induction s with
  | nil =>
    intro w hs _ hf hp
    refine ⟨[], by simp, ?_⟩
    have hrd : sys_read .sysfd 1 w = (.data [b], { w with sys_pos := 1 }) := by
      simp [sys_read, next_rc_nil w hs, hf, hp]
    rw [read_or_die, read_or_die_loop_data _ _ _ _ _ _ _ _ (by omega) hrd]
    simp only [List.length_singleton, one_ne_zero, if_false, Nat.sub_self, read_or_die_loop_zero]
    simp [store]
    cases w; simp_all
  | cons r s ih =>
    intro w hs hc hf hp
    have hr := hc r (by simp)
    have hcs : clean s := clean_of_subset hc (fun r hr => by simp [hr])
    cases r with
    | eintr =>
      have hrd : sys_read .sysfd 1 w = (.fail true, { w with script := s }) := by
        simp [sys_read, next_rc_cons w _ s hs]
      obtain ⟨s1, hsub, h1⟩ := ih { w with script := s } rfl hcs hf hp
      refine ⟨s1, fun r hr => by simp [hsub r hr], ?_⟩
      rw [read_or_die, read_or_die_loop_eintr _ _ _ _ _ _ _ (by omega) hrd]
      exact h1
    | error => simp at hr
    | ok =>
      refine ⟨s, fun r hr => by simp [hr], ?_⟩
      have hrd : sys_read .sysfd 1 w = (.data [b], { w with script := s, sys_pos := 1 }) := by
        simp [sys_read, next_rc_cons w _ s hs, hf, hp]
      rw [read_or_die, read_or_die_loop_data _ _ _ _ _ _ _ _ (by omega) hrd]
      simp only [List.length_singleton, one_ne_zero, if_false, Nat.sub_self, read_or_die_loop_zero]
      simp [store]
    | part k =>
      refine ⟨s, fun r hr => by simp [hr], ?_⟩
      have hk : k ≠ 0 := fun h0 => hr.2 (by rw [h0])
      have hmin : min k 1 = 1 := by omega
      have hrd : sys_read .sysfd 1 w = (.data [b], { w with script := s, sys_pos := 1 }) := by
        simp [sys_read, next_rc_cons w _ s hs, hf, hp, hmin]
      rw [read_or_die, read_or_die_loop_data _ _ _ _ _ _ _ _ (by omega) hrd]
      simp only [List.length_singleton, one_ne_zero, if_false, Nat.sub_self, read_or_die_loop_zero]
      simp [store]

theorem write_or_die_sysfd_one (v b : Nat) (c : List Nat) :
    ∀ (s : List Rc) (w : World), w.script = s → clean s → w.force_ro = some (b :: c) →
      w.sys_pos = 0 →
      ∃ s1, (∀ r ∈ s1, r ∈ s) ∧
        write_or_die .sysfd [v] w =
          .ret 1 { w with script := s1, force_ro := some (v :: c), sys_pos := 1 } := by
  intro s
  induction s with
  | nil =>
    intro w hs _ hf hp
    refine ⟨[], by simp, ?_⟩
    have hwr : sys_write .sysfd [v] w =
        (.wrote 1, { w with force_ro := some (v :: c), sys_pos := 1 }) := by
      simp [sys_write, next_rc_nil w hs, hf, hp, store]
    rw [write_or_die, write_or_die_loop_wrote _ _ _ _ _ (by simp) hwr]
    simp only [one_ne_zero, if_false, List.drop_one, List.tail_cons, write_or_die_loop_nil,
      Res.bind, List.length_singleton]
    cases w; simp_all
  | cons r s ih =>
    intro w hs hc hf hp
    have hr := hc r (by simp)
    have hcs : clean s := clean_of_subset hc (fun r hr => by simp [hr])
    cases r with
    | eintr =>
      have hwr : sys_write .sysfd [v] w = (.fail true, { w with script := s }) := by
        simp [sys_write, next_rc_cons w _ s hs]
      obtain ⟨s1, hsub, h1⟩ := ih { w with script := s } rfl hcs hf hp
      refine ⟨s1, fun r hr => by simp [hsub r hr], ?_⟩
      rw [write_or_die, write_or_die_loop_eintr _ _ _ _ (by simp) hwr]
      exact h1
    | error => simp at hr
    | ok =>
      refine ⟨s, fun r hr => by simp [hr], ?_⟩
      have hwr : sys_write .sysfd [v] w =
          (.wrote 1, { w with script := s, force_ro := some (v :: c), sys_pos := 1 }) := by
        simp [sys_write, next_rc_cons w _ s hs, hf, hp, store]
      rw [write_or_die, write_or_die_loop_wrote _ _ _ _ _ (by simp) hwr]
      simp only [one_ne_zero, if_false, List.drop_one, List.tail_cons, write_or_die_loop_nil,
        Res.bind, List.length_singleton]
    | part k =>
      refine ⟨s, fun r hr => by simp [hr], ?_⟩
      have hk : k ≠ 0 := fun h0 => hr.2 (by rw [h0])
      have hmin : min k 1 = 1 := by omega
      have hwr : sys_write .sysfd [v] w =
          (.wrote 1, { w with script := s, force_ro := some (v :: c), sys_pos := 1 }) := by
        simp [sys_write, next_rc_cons w _ s hs, hf, hp, store, hmin]
      rw [write_or_die, write_or_die_loop_wrote _ _ _ _ _ (by simp) hwr]
      simp only [one_ne_zero, if_false, List.drop_one, List.tail_cons, write_or_die_loop_nil,
        Res.bind, List.length_singleton]

theorem or_die_sys_call_clean (w : World) (hc : clean w.script) :
    ∃ s, (∀ r ∈ s, r ∈ w.script) ∧ or_die (sys_call w) = .ret () { w with script := s } := by
  obtain ⟨s, hsub, h⟩ := sys_call_clean w hc
  exact ⟨s, hsub, by simp [or_die, h]⟩

theorem or_die_sys_lseek0_clean (w : World) (hc : clean w.script) :
    ∃ s, (∀ r ∈ s, r ∈ w.script) ∧
      or_die (sys_lseek0 w) = .ret () { w with script := s, sys_pos := 0 } := by
  obtain ⟨s, hsub, h⟩ := sys_call_clean w hc
  exact ⟨s, hsub, by simp [or_die, sys_lseek0, h]⟩

theorem or_die_sys_open_ofd_clean (w : World) (hc : clean w.script) :
    ∃ s, (∀ r ∈ s, r ∈ w.script) ∧
      or_die (sys_open_ofd w) = .ret () { w with script := s, out := [] } := by
  obtain ⟨s, hsub, h⟩ := sys_call_clean w hc
  exact ⟨s, hsub, by simp [or_die, sys_open_ofd, h]⟩

theorem malloc_clean (size : Nat) (w : World) (hc : clean w.script) :
    ∃ s, (∀ r ∈ s, r ∈ w.script) ∧
      malloc size w = (some ((List.range size).map w.heap), { w with script := s }) := by
  obtain ⟨s, hsub, h⟩ := sys_call_clean w hc
  exact ⟨s, hsub, by simp [malloc, h]⟩

/-- In a clean world the first block returns; it leaves the flag as it was
and sysfd closed, or found the flag set, cleared it and keeps sysfd open. -/
theorem reset_force_ro_clean (bootfile : List Char) (w : World) (hc : clean w.script)
    (hf : w.force_ro ≠ some []) :
    ∃ s p, (∀ r ∈ s, r ∈ w.script) ∧
      ((reset_force_ro bootfile w = .ret false { w with script := s, sys_pos := p } ∧
          ¬ (is_dev bootfile ∧ ∃ c, w.force_ro = some (CHAR_1 :: c))) ∨
       (∃ c, is_dev bootfile ∧ w.force_ro = some (CHAR_1 :: c) ∧
          reset_force_ro bootfile w =
            .ret true { w with script := s, sys_pos := p, force_ro := some (CHAR_0 :: c) })) := by
  by_cases hdev : bootfile.take 5 = ['/', 'd', 'e', 'v', '/']
  · obtain ⟨s0, hsub0, h0⟩ := sys_call_clean w hc
    rcases w with ⟨scr, fr, pos, img, sz, out, heap, mfd, card, ecsd, wd, act⟩
    simp only [] at hc hf hsub0 h0 ⊢
    cases fr with
    | none =>
      refine ⟨s0, pos, hsub0, Or.inl ⟨?_, by simp⟩⟩
      simp [reset_force_ro, hdev, sys_open_force_ro, h0]
    | some content =>
      cases content with
      | nil => exact absurd rfl hf
      | cons b c =>
        obtain ⟨s1, hsub1, h1⟩ := read_or_die_sysfd_one 0 b c s0
          ⟨s0, some (b :: c), 0, img, sz, out, heap, mfd, card, ecsd, wd, act⟩
          rfl (clean_of_subset hc hsub0) rfl rfl
        simp only [] at h1
        have hc1 : clean s1 := clean_of_subset hc (fun r hr => hsub0 r (hsub1 r hr))
        by_cases hb : b = CHAR_1
        · obtain ⟨s2, hsub2, h2⟩ := or_die_sys_lseek0_clean
            ⟨s1, some (b :: c), 1, img, sz, out, heap, mfd, card, ecsd, wd, act⟩ hc1
          simp only [] at h2 hsub2
          obtain ⟨s3, hsub3, h3⟩ := write_or_die_sysfd_one CHAR_0 b c s2
            ⟨s2, some (b :: c), 0, img, sz, out, heap, mfd, card, ecsd, wd, act⟩
            rfl (clean_of_subset hc1 hsub2) rfl rfl
          simp only [] at h3
          refine ⟨s3, 1, fun r hr => hsub0 r (hsub1 r (hsub2 r (hsub3 r hr))),
            Or.inr ⟨c, hdev, by rw [hb], ?_⟩⟩
          simp only [reset_force_ro, hdev, if_true, sys_open_force_ro, h0, h1, Res.bind]
          simp only [ne_eq, not_true_eq_false, if_false, List.getD_cons_zero, hb, if_true]
          rw [← hb]
          simp only [h2, h3, Res.bind]
        · obtain ⟨s2, hsub2, h2⟩ := sys_call_clean
            ⟨s1, some (b :: c), 1, img, sz, out, heap, mfd, card, ecsd, wd, act⟩ hc1
          simp only [] at h2 hsub2
          refine ⟨s2, 1, fun r hr => hsub0 r (hsub1 r (hsub2 r hr)), Or.inl ⟨?_, ?_⟩⟩
          · simp only [reset_force_ro, hdev, if_true, sys_open_force_ro, h0, h1, Res.bind]
            simp only [ne_eq, not_true_eq_false, if_false, List.getD_cons_zero, hb, h2]
          · rintro ⟨_, c2, hc2⟩
            simp at hc2
            exact hb hc2.1
  · refine ⟨w.script, w.sys_pos, fun r hr => hr, Or.inl ⟨?_, fun h => hdev h.1⟩⟩
    simp [reset_force_ro, hdev]

theorem restore_force_ro_false (w : World) : restore_force_ro false w = .ret () w := by
  simp [restore_force_ro]

theorem restore_force_ro_true (w : World) (hc : clean w.script) (b : Nat) (c : List Nat)
    (hf : w.force_ro = some (b :: c)) :
    ∃ s, (∀ r ∈ s, r ∈ w.script) ∧
      restore_force_ro true w =
        .ret () { w with script := s, sys_pos := 1, force_ro := some (CHAR_1 :: c) } := by
  obtain ⟨s1, hsub1, h1⟩ := or_die_sys_lseek0_clean w hc
  obtain ⟨s2, hsub2, h2⟩ := write_or_die_sysfd_one CHAR_1 b c s1
    { w with script := s1, sys_pos := 0 } rfl (clean_of_subset hc hsub1) hf rfl
  obtain ⟨s3, hsub3, h3⟩ := sys_call_clean
    { w with script := s2, force_ro := some (CHAR_1 :: c), sys_pos := 1 }
    (clean_of_subset hc (fun r hr => hsub1 r (hsub2 r hr)))
  refine ⟨s3, fun r hr => hsub1 r (hsub2 r (hsub3 r hr)), ?_⟩
  simp only [restore_force_ro, if_true, h1, h2, h3, Res.bind]

/-- A run of write_bootstream in which no system call fails fatally: it
returns, the output holds the stream header followed by the segments, the
bootstream is read up to st_size and the force_ro entry is as before. -/
theorem write_bootstream_clean (bootfile : List Char) (w : World) (hc : clean w.script)
    (hf : w.force_ro ≠ some []) :
    ∃ s p, (∀ r ∈ s, r ∈ w.script) ∧
      write_bootstream bootfile w =
        .ret (frames_of w.st_size (buf0 w) w.image)
          { w with script := s, sys_pos := p, image := w.image.drop w.st_size,
                   out := le64 0 ++ (frames_of w.st_size (buf0 w) w.image).flatMap Seg.bytes } := by
  obtain ⟨s0, p0, hsub0, h0⟩ := reset_force_ro_clean bootfile w hc hf
  rcases w with ⟨scr, fr, pos, img, sz, out, heap, mfd, card, ecsd, wd, act⟩
  simp only [buf0] at hc hf hsub0 h0 ⊢
  -- the steps between the two force_ro blocks, for any state of the entry
  have mid : ∀ (fr1 : Option (List Nat)) (sysfd : Bool),
      ∃ s7, (∀ r ∈ s7, r ∈ s0) ∧
        ∀ (k : World → Res Unit),
        ((or_die (sys_call ⟨s0, fr1, p0, img, sz, out, heap, mfd, card, ecsd, wd, act⟩)).bind
          fun _ w2 => (or_die (sys_open_ofd w2)).bind fun _ w3 =>
          (or_die (sys_call w3)).bind fun _ w4 =>
          match malloc MAX_SEG_LEN w4 with
          | (none, w5) => die w5
          | (some buf, w5) =>
            (write_or_die .ofd (le64 0) w5).bind fun _ w6 =>
            (copy_loop w4.st_size buf w6).bind fun segs w7 =>
            (or_die (sys_call w7)).bind fun _ w8 =>
            (or_die (sys_call w8)).bind fun _ w9 =>
            (k w9).bind fun _ w10 => Res.ret segs w10) =
        (k ⟨s7, fr1, p0, img.drop sz, sz,
            le64 0 ++ (frames_of sz ((List.range MAX_SEG_LEN).map heap) img).flatMap Seg.bytes,
            heap, mfd, card, ecsd, wd, act⟩).bind fun _ w10 =>
          Res.ret (frames_of sz ((List.range MAX_SEG_LEN).map heap) img) w10 := by
    intro fr1 sysfd
    have hc0 : clean s0 := clean_of_subset hc hsub0
    obtain ⟨s1, hsub1, h1⟩ := or_die_sys_call_clean
      ⟨s0, fr1, p0, img, sz, out, heap, mfd, card, ecsd, wd, act⟩ hc0
    simp only [] at h1 hsub1
    have hc1 := clean_of_subset hc0 hsub1
    obtain ⟨s2, hsub2, h2⟩ := or_die_sys_open_ofd_clean
      ⟨s1, fr1, p0, img, sz, out, heap, mfd, card, ecsd, wd, act⟩ hc1
    simp only [] at h2 hsub2
    have hc2 := clean_of_subset hc1 hsub2
    obtain ⟨s3, hsub3, h3⟩ := or_die_sys_call_clean
      ⟨s2, fr1, p0, img, sz, [], heap, mfd, card, ecsd, wd, act⟩ hc2
    simp only [] at h3 hsub3
    have hc3 := clean_of_subset hc2 hsub3
    obtain ⟨s4, hsub4, h4⟩ := malloc_clean MAX_SEG_LEN
      ⟨s3, fr1, p0, img, sz, [], heap, mfd, card, ecsd, wd, act⟩ hc3
    simp only [] at h4 hsub4
    have hc4 := clean_of_subset hc3 hsub4
    obtain ⟨s5, hsub5, h5⟩ := write_or_die_ofd (le64 0)
      ⟨s4, fr1, p0, img, sz, [], heap, mfd, card, ecsd, wd, act⟩ hc4
    simp only [List.nil_append] at h5 hsub5
    have hc5 := clean_of_subset hc4 hsub5
    obtain ⟨s6, hsub6, h6⟩ := copy_loop_clean sz ((List.range MAX_SEG_LEN).map heap)
      ⟨s5, fr1, p0, img, sz, le64 0, heap, mfd, card, ecsd, wd, act⟩ hc5
    simp only [] at h6 hsub6
    have hc6 := clean_of_subset hc5 hsub6
    obtain ⟨s7, hsub7, h7⟩ := or_die_sys_call_clean
      ⟨s6, fr1, p0, img.drop sz, sz,
        le64 0 ++ (frames_of sz ((List.range MAX_SEG_LEN).map heap) img).flatMap Seg.bytes,
        heap, mfd, card, ecsd, wd, act⟩ hc6
    simp only [] at h7 hsub7
    have hc7 := clean_of_subset hc6 hsub7
    obtain ⟨s8, hsub8, h8⟩ := or_die_sys_call_clean
      ⟨s7, fr1, p0, img.drop sz, sz,
        le64 0 ++ (frames_of sz ((List.range MAX_SEG_LEN).map heap) img).flatMap Seg.bytes,
        heap, mfd, card, ecsd, wd, act⟩ hc7
    simp only [] at h8 hsub8
    refine ⟨s8, fun r hr => hsub1 r (hsub2 r (hsub3 r (hsub4 r (hsub5 r (hsub6 r
      (hsub7 r (hsub8 r hr))))))), fun k => ?_⟩
    simp only [h1, h2, h3, h4, h5, h6, h7, h8, Res.bind]
  rcases h0 with ⟨h0, _⟩ | ⟨c, _, hfr, h0⟩
  · obtain ⟨s7, hsub7, hmid⟩ := mid fr false
    refine ⟨s7, p0, fun r hr => hsub0 r (hsub7 r hr), ?_⟩
    rw [write_bootstream, h0]
    simp only [Res.bind] at hmid ⊢
    rw [hmid (restore_force_ro false)]
    rfl
  · obtain ⟨s7, hsub7, hmid⟩ := mid (some (CHAR_0 :: c)) true
    obtain ⟨s8, hsub8, h8⟩ := restore_force_ro_true
      ⟨s7, some (CHAR_0 :: c), p0, img.drop sz, sz,
        le64 0 ++ (frames_of sz ((List.range MAX_SEG_LEN).map heap) img).flatMap Seg.bytes,
        heap, mfd, card, ecsd, wd, act⟩
      (clean_of_subset hc (fun r hr => hsub0 r (hsub7 r hr))) CHAR_0 c rfl
    simp only [] at h8 hsub8
    refine ⟨s8, 1, fun r hr => hsub0 r (hsub7 r (hsub8 r hr)), ?_⟩
    rw [write_bootstream, h0]
    simp only [Res.bind] at hmid ⊢
    rw [hmid (restore_force_ro true), h8]
    subst hfr
    rfl

theorem and_fff8 (x : Nat) : x &&& 0xfff8 = (x / 8 % 8192) * 8 := by
  have h : (0xfff8 : Nat) = (2 ^ 13 - 1) <<< 3 := by decide
  have e : x &&& 0xfff8 = ((x >>> 3) % 2 ^ 13) <<< 3 := by
    apply Nat.eq_of_testBit_eq
    intro i
    rw [h]
    simp only [Nat.testBit_and, Nat.testBit_shiftLeft, Nat.testBit_two_pow_sub_one,
      Nat.testBit_mod_two_pow, Nat.testBit_shiftRight]
    by_cases h3 : i ≥ 3
    · have : 3 + (i - 3) = i := by omega
      simp [h3, this, Bool.and_comm]
    · simp [h3]
  rw [e, Nat.shiftLeft_eq, Nat.shiftRight_eq_div_pow]
  norm_num

/-- The header as a sum of its four fields. -/
theorem gen_seg_header_eq (is_end channel address : Int) (length : Nat) :
    gen_seg_header is_end channel address length =
      2 ^ 63 * (to_ulong is_end % 2) + 2 ^ 45 * (to_ulong channel % 16) +
      2 ^ 32 * (to_ulong address / 8 % 8192) + (length + 8) % 2 ^ 64 / 8 % 2 ^ 17 := by
  unfold gen_seg_header SEGMENT_HEADER_LEN
  have hA : to_ulong is_end &&& 0x1 = to_ulong is_end % 2 := Nat.and_one_is_mod _
  have hC : to_ulong channel &&& 0xf = to_ulong channel % 16 :=
    Nat.and_pow_two_sub_one_eq_mod _ 4
  have hF : ∀ y : Nat, y >>> 3 &&& 0x1ffff = y / 8 % 2 ^ 17 := by
    intro y
    rw [Nat.shiftRight_eq_div_pow]
    exact Nat.and_pow_two_sub_one_eq_mod _ 17
  rw [hA, hC, and_fff8, hF]
  generalize to_ulong is_end % 2 = a
  generalize hc : to_ulong channel % 16 = c
  generalize hd : to_ulong address / 8 % 8192 = d
  generalize hf : (length + 8) % 2 ^ 64 / 8 % 2 ^ 17 = f
  have hc16 : c < 16 := by rw [← hc]; exact Nat.mod_lt _ (by norm_num)
  have hd13 : d < 8192 := by rw [← hd]; exact Nat.mod_lt _ (by norm_num)
  have hf17 : f < 2 ^ 17 := by rw [← hf]; exact Nat.mod_lt _ (by norm_num)
  simp only [Nat.shiftLeft_eq]
  rw [Nat.or_assoc, Nat.or_assoc]
  have e1 : d * 8 * 2 ^ 29 ||| f = 2 ^ 32 * d + f := by
    have : d * 8 * 2 ^ 29 = 2 ^ 29 * (d * 8) := by ring
    rw [this, ← Nat.mul_add_lt_is_or (by omega : f < 2 ^ 29)]
    ring
  rw [e1]
  have e2 : c * 2 ^ 45 ||| (2 ^ 32 * d + f) = 2 ^ 45 * c + (2 ^ 32 * d + f) := by
    rw [Nat.mul_comm, ← Nat.mul_add_lt_is_or (by omega : 2 ^ 32 * d + f < 2 ^ 45)]
  rw [e2]
  have e3 : a * 2 ^ 63 ||| (2 ^ 45 * c + (2 ^ 32 * d + f)) =
      2 ^ 63 * a + (2 ^ 45 * c + (2 ^ 32 * d + f)) := by
    rw [Nat.mul_comm, ← Nat.mul_add_lt_is_or (by omega : 2 ^ 45 * c + (2 ^ 32 * d + f) < 2 ^ 63)]
  rw [e3]
  ring

theorem to_ulong_natCast (n : Nat) : to_ulong (n : Int) = n % 2 ^ 64 := by
  unfold to_ulong
  have : ((n : Int) % 2 ^ 64) = ((n % 2 ^ 64 : Nat) : Int) := by push_cast; rfl
  rw [this, Int.toNat_natCast]

theorem of_le64_le64 (x : Nat) (h : x < 2 ^ 64) : of_le64 (le64 x) = x := by
  simp only [of_le64, le64, List.getD_cons_zero, List.getD_cons_succ]
  omega

theorem to_ulong_zero : to_ulong 0 = 0 := by decide

theorem to_ulong_one : to_ulong 1 = 1 := by decide

theorem to_ulong_boot_fifo : to_ulong (BOOT_FIFO_ADDR : Nat) = 0x408 := by decide

theorem header_facts (e : Nat) (he : e ≤ 1) (seg : Nat) (h1 : 1 ≤ seg) (h2 : seg ≤ MAX_SEG_LEN) :
    gen_seg_header (e : Int) 1 (BOOT_FIFO_ADDR : Nat) (seg + pad_of seg) < 2 ^ 64 ∧
    (gen_seg_header (e : Int) 1 (BOOT_FIFO_ADDR : Nat) (seg + pad_of seg)).testBit 63
      = decide (e = 1) ∧
    frame_len_wrap (gen_seg_header (e : Int) 1 (BOOT_FIFO_ADDR : Nat) (seg + pad_of seg))
      = seg + pad_of seg + 8 ∧
    (seg + pad_of seg < MAX_SEG_LEN →
      frame_len (gen_seg_header (e : Int) 1 (BOOT_FIFO_ADDR : Nat) (seg + pad_of seg))
        = seg + pad_of seg + 8) := by
  rw [gen_seg_header_eq, to_ulong_natCast, to_ulong_one, to_ulong_boot_fifo]
  simp only [MAX_SEG_LEN, SEGMENT_HEADER_LEN, pad_of] at *
  have hp : (seg + if seg % 8 ≠ 0 then 8 - seg % 8 else 0) % 8 = 0 := by split <;> omega
  have hp2 : (seg + if seg % 8 ≠ 0 then 8 - seg % 8 else 0) ≤ 1048568 := by
    simp only [Nat.reduceShiftLeft] at h2
    split <;> omega
  have hp3 : 1 ≤ (seg + if seg % 8 ≠ 0 then 8 - seg % 8 else 0) := by omega
  generalize (seg + if seg % 8 ≠ 0 then 8 - seg % 8 else 0) = len at *
  refine ⟨by omega, ?_, ?_, ?_⟩
  · rw [Nat.testBit_to_div_mod]
    congr 1
    simp only [eq_iff_iff]
    constructor <;> intro h <;> omega
  · unfold frame_len_wrap
    split <;> omega
  · intro hlt
    unfold frame_len
    simp only [Nat.reduceShiftLeft] at hlt
    omega

theorem seg_of_pos (bl : Nat) (h : 0 < bl) : 1 ≤ seg_of bl := by
  unfold seg_of MAX_SEG_LEN SEGMENT_HEADER_LEN
  split <;> omega

theorem seg_of_le (bl : Nat) : seg_of bl ≤ bl := by
  unfold seg_of
  split <;> omega

theorem seg_of_le_max (bl : Nat) : seg_of bl ≤ MAX_SEG_LEN := by
  unfold seg_of
  split <;> omega

theorem seg_of_eq_min (bl : Nat) : seg_of bl = min bl MAX_SEG_LEN := by
  unfold seg_of
  split <;> omega

theorem pad_of_eq (seg : Nat) : pad_of seg = (8 - seg % 8) % 8 := by
  unfold pad_of
  split <;> omega

theorem frames_of_pos (bl : Nat) (buf image : List Nat) (h : 0 < bl) :
    frames_of bl buf image =
      { segheader := gen_seg_header (if bl - seg_of bl = 0 then 1 else 0) 1 BOOT_FIFO_ADDR
          (seg_of bl + pad_of (seg_of bl)),
        seg_size := seg_of bl,
        pad_size := pad_of (seg_of bl),
        body := (memset (store buf 0 (image.take (seg_of bl))) (seg_of bl) 0
          (pad_of (seg_of bl))).take (seg_of bl + pad_of (seg_of bl)) } ::
      frames_of (bl - seg_of bl)
        (memset (store buf 0 (image.take (seg_of bl))) (seg_of bl) 0 (pad_of (seg_of bl)))
        (image.drop (seg_of bl)) := by
  rw [frames_of]
  simp only [h, dite_true, seg_of, pad_of, gt_iff_lt]

/-- A segment read in full is written as its bytes followed by zero padding. -/
theorem body_full (buf image : List Nat) (seg pad : Nat) (h : seg ≤ image.length) :
    (memset (store buf 0 (image.take seg)) seg 0 pad).take (seg + pad) =
      image.take seg ++ List.replicate pad 0 := by
  have hl : (image.take seg).length = seg := by simp [List.length_take, h]
  unfold memset
  rw [store_zero, hl]
  unfold store
  have h1 : List.take seg (List.take seg image ++ List.drop seg buf) = List.take seg image :=
    List.take_left' hl
  rw [h1]
  apply List.take_left'
  simp [hl]

theorem le64_length (x : Nat) : (le64 x).length = 8 := rfl

set_option maxRecDepth 100000 in
theorem spec_decode_segments_frame (flen : Nat → Nat) (hdr : Nat) (body rest : List Nat)
    (hh : hdr < 2 ^ 64) (hl : flen hdr = body.length + 8) :
    spec_decode_segments flen (le64 hdr ++ body ++ rest) =
      if hdr.testBit 63 then some [body]
      else (spec_decode_segments flen rest).map (body :: ·) := by
  rw [spec_decode_segments]
  have h8 : ¬ (le64 hdr ++ body ++ rest).length < 8 := by
    simp [le64_length]
  have ht : List.take 8 (le64 hdr ++ body ++ rest) = le64 hdr := by
    rw [List.append_assoc]
    exact List.take_left' (le64_length hdr)
  have hd : List.drop 8 (le64 hdr ++ body ++ rest) = body ++ rest := by
    rw [List.append_assoc]
    exact List.drop_left' (le64_length hdr)
  have hn1 : ¬ (body.length + 8 < 8) := by omega
  have hn : ¬ ((le64 hdr ++ body ++ rest).length < body.length + 8) := by
    simp [le64_length]
    omega
  have hdn : List.drop (body.length + 8) (le64 hdr ++ body ++ rest) = rest := by
    apply List.drop_left'
    simp [le64_length]
    omega
  simp only [h8, if_false, ht, of_le64_le64 hdr hh, hl, hn1, hn, hd, Nat.add_sub_cancel,
    List.take_left, hdn]

theorem pad_of_max : pad_of MAX_SEG_LEN = 0 := by decide

theorem pad_of_lt (seg : Nat) : pad_of seg < 8 := by
  unfold pad_of
  split <;> omega

theorem pad_of_sub_max (bl : Nat) (h : MAX_SEG_LEN ≤ bl) :
    pad_of (bl - MAX_SEG_LEN) = pad_of bl := by
  unfold pad_of MAX_SEG_LEN SEGMENT_HEADER_LEN at *
  simp only [Nat.reduceShiftLeft, Nat.reduceSub] at *
  have : (bl - 1048568) % 8 = bl % 8 := by omega
  rw [this]

/-- The end flag of the header written when bytes_left bytes remain. -/
theorem flag_cast (c : Prop) [Decidable c] :
    (if c then (1 : Int) else 0) = (((if c then 1 else 0 : Nat)) : Int) := by
  split <;> rfl

/-- The frames of an image read in full, concatenated, are the image
followed by the padding of the last segment. -/
theorem frames_join (bl : Nat) : ∀ (buf image : List Nat), image.length = bl →
    ((frames_of bl buf image).map Seg.body).flatten = image ++ List.replicate (pad_of bl) 0 := by
  induction bl using Nat.strong_induction_on with
  | _ bl ih =>
    intro buf image hl
    by_cases hbl : 0 < bl
    · rw [frames_of_pos bl buf image hbl]
      simp only [List.map_cons, List.flatten_cons]
      rw [body_full buf image _ _ (by rw [hl]; exact seg_of_le bl)]
      have hlt : bl - seg_of bl < bl := by have := seg_of_pos bl hbl; omega
      rw [ih (bl - seg_of bl) hlt _ (image.drop (seg_of bl)) (by simp [hl])]
      by_cases hle : bl ≤ MAX_SEG_LEN
      · have hs : seg_of bl = bl := by simp [seg_of, hle]
        rw [hs]
        have h0 : pad_of (bl - bl) = 0 := by simp [pad_of]
        rw [h0]
        simp [← hl]
      · have hs : seg_of bl = MAX_SEG_LEN := by simp [seg_of, hle]
        rw [hs, pad_of_max, pad_of_sub_max bl (by omega)]
        simp only [List.replicate_zero, List.append_nil]
        rw [← List.append_assoc, List.take_append_drop]
    · have h0 : bl = 0 := by omega
      subst h0
      have : image = [] := List.length_eq_zero.mp hl
      simp [frames_of_zero, this, pad_of]

/-- Decoding the segments of an image read in full, a length field of zero
standing for 2^17 words, gives back the frames. -/
theorem frames_decode_wrap (bl : Nat) : ∀ (buf image : List Nat), 0 < bl → image.length = bl →
    spec_decode_segments frame_len_wrap ((frames_of bl buf image).flatMap Seg.bytes) =
      some ((frames_of bl buf image).map Seg.body) := by
  induction bl using Nat.strong_induction_on with
  | _ bl ih =>
    intro buf image hbl hl
    rw [frames_of_pos bl buf image hbl]
    simp only [List.flatMap_cons, List.map_cons, Seg.bytes]
    rw [body_full buf image _ _ (by rw [hl]; exact seg_of_le bl)]
    have hlt : bl - seg_of bl < bl := by have := seg_of_pos bl hbl; omega
    rw [flag_cast]
    obtain ⟨hh, hbit, hwrap, _⟩ := header_facts (if bl - seg_of bl = 0 then 1 else 0)
      (by split <;> omega) (seg_of bl) (seg_of_pos bl hbl) (seg_of_le_max bl)
    have hbl2 : (List.take (seg_of bl) image ++ List.replicate (pad_of (seg_of bl)) 0).length + 8
        = seg_of bl + pad_of (seg_of bl) + 8 := by
      simp [List.length_take, hl, seg_of_le bl]
    rw [spec_decode_segments_frame _ _ _ _ hh (by rw [hwrap, hbl2]), hbit]
    by_cases hend : bl - seg_of bl = 0
    · simp only [hend, if_true, decide_True]
      simp [frames_of_zero]
    · simp only [hend, if_false]
      rw [ih (bl - seg_of bl) hlt _ (image.drop (seg_of bl)) (by omega) (by simp [hl])]
      simp

/-- The header of a full-size segment has length field 0. -/
theorem header_field_wrap (e : Int) (seg : Nat) (h : seg + pad_of seg = MAX_SEG_LEN) :
    frame_len (gen_seg_header e 1 (BOOT_FIFO_ADDR : Nat) (seg + pad_of seg)) = 0 := by
  rw [h, gen_seg_header_eq, to_ulong_one, to_ulong_boot_fifo]
  simp only [MAX_SEG_LEN, SEGMENT_HEADER_LEN, frame_len]
  omega

theorem gen_seg_header_lt (e c a : Int) (len : Nat) : gen_seg_header e c a len < 2 ^ 64 := by
  rw [gen_seg_header_eq]
  omega

set_option maxRecDepth 100000 in
theorem spec_decode_segments_short_frame (flen : Nat → Nat) (hdr : Nat) (rest : List Nat)
    (hh : hdr < 2 ^ 64) (hl : flen hdr < 8) :
    spec_decode_segments flen (le64 hdr ++ rest) = none := by
  rw [spec_decode_segments]
  have ht : List.take 8 (le64 hdr ++ rest) = le64 hdr := List.take_left' (le64_length hdr)
  simp only [ht, of_le64_le64 hdr hh, hl, if_true]
  simp

/-- With the length field read as it stands, the segments of an image of
more than MAX_SEG_LEN - 8 bytes do not decode. -/
theorem frames_decode_literal_none (bl : Nat) (buf image : List Nat)
    (h : MAX_SEG_LEN - 8 < bl) :
    spec_decode_segments frame_len ((frames_of bl buf image).flatMap Seg.bytes) = none := by
  have hbl : 0 < bl := by omega
  rw [frames_of_pos bl buf image hbl]
  simp only [List.flatMap_cons, Seg.bytes, List.append_assoc]
  apply spec_decode_segments_short_frame _ _ _ (gen_seg_header_lt _ _ _ _)
  have hs : seg_of bl + pad_of (seg_of bl) = MAX_SEG_LEN := by
    unfold seg_of pad_of MAX_SEG_LEN SEGMENT_HEADER_LEN at *
    simp only [Nat.reduceShiftLeft, Nat.reduceSub] at *
    split <;> split <;> omega
  rw [header_field_wrap _ _ hs]
  omega

/-- With the length field read as it stands, an image of at most
MAX_SEG_LEN - 8 bytes, read in full, decodes to its single frame. -/
theorem frames_decode_literal (bl : Nat) (buf image : List Nat) (hbl : 0 < bl)
    (h : bl ≤ MAX_SEG_LEN - 8) (hl : image.length = bl) :
    spec_decode_segments frame_len ((frames_of bl buf image).flatMap Seg.bytes) =
      some ((frames_of bl buf image).map Seg.body) := by
  have hs : seg_of bl = bl := by
    unfold seg_of
    rw [if_pos (by omega)]
  rw [frames_of_pos bl buf image hbl, hs, Nat.sub_self, frames_of_zero]
  simp only [List.flatMap_cons, List.map_cons, Seg.bytes, List.flatMap_nil, List.map_nil,
    if_true]
  rw [body_full buf image _ _ (by omega)]
  have hlt : bl + pad_of bl < MAX_SEG_LEN := by
    unfold pad_of MAX_SEG_LEN SEGMENT_HEADER_LEN at *
    simp only [Nat.reduceShiftLeft, Nat.reduceSub] at *
    split <;> omega
  obtain ⟨hh, hbit, _, hlit⟩ := header_facts 1 (le_refl _) bl hbl (by omega)
  have hbl2 : (List.take bl image ++ List.replicate (pad_of bl) 0).length + 8
      = bl + pad_of bl + 8 := by
    simp [List.length_take, hl]
  have := spec_decode_segments_frame frame_len _ _ [] hh (by rw [hlit hlt, hbl2])
  rw [show ((1 : Nat) : Int) = 1 from rfl] at this hbit
  rw [this, hbit]
  simp

theorem flatMap_bytes_length (F : List Seg) :
    (F.flatMap Seg.bytes).length = (F.map fun s => 8 + s.body.length).sum := by
  induction F with
  | nil => rfl
  | cons s F ih =>
    simp only [List.flatMap_cons, List.length_append, List.map_cons, List.sum_cons, ih, Seg.bytes,
      le64_length]

/-- Sizes of the segments of an image read in full. -/
theorem frames_sizes (bl : Nat) : ∀ (buf image : List Nat), image.length = bl →
    (∀ s ∈ frames_of bl buf image,
      1 ≤ s.seg_size ∧ s.seg_size ≤ MAX_SEG_LEN ∧ s.pad_size = pad_of s.seg_size ∧
      s.body.length = s.seg_size + s.pad_size) ∧
    ((frames_of bl buf image).map Seg.seg_size).sum = bl ∧
    (∀ (i : Nat) (h : i < (frames_of bl buf image).length),
      ((frames_of bl buf image).get ⟨i, h⟩).seg_size =
        min (bl - (((frames_of bl buf image).take i).map Seg.seg_size).sum) MAX_SEG_LEN) := by
  induction bl using Nat.strong_induction_on with
  | _ bl ih =>
    intro buf image hl
    by_cases hbl : 0 < bl
    · have hlt : bl - seg_of bl < bl := by have := seg_of_pos bl hbl; omega
      obtain ⟨ih1, ih2, ih3⟩ := ih (bl - seg_of bl) hlt
        (memset (store buf 0 (image.take (seg_of bl))) (seg_of bl) 0 (pad_of (seg_of bl)))
        (image.drop (seg_of bl)) (by simp [hl])
      rw [frames_of_pos bl buf image hbl]
      refine ⟨?_, ?_, ?_⟩
      · intro s hs
        rcases List.mem_cons.mp hs with h | h
        · subst h
          refine ⟨seg_of_pos bl hbl, seg_of_le_max bl, rfl, ?_⟩
          simp only []
          rw [body_full buf image _ _ (by rw [hl]; exact seg_of_le bl)]
          simp [List.length_take, hl, seg_of_le bl]
        · exact ih1 s h
      · simp only [List.map_cons, List.sum_cons, ih2]
        have := seg_of_le bl
        omega
      · intro i h
        cases i with
        | zero => simp [seg_of_eq_min]
        | succ i =>
          simp only [List.length_cons, Nat.add_lt_add_iff_right] at h
          simp only [List.get_eq_getElem, List.getElem_cons_succ, List.take_succ_cons,
            List.map_cons, List.sum_cons]
          have := ih3 i h
          simp only [List.get_eq_getElem] at this
          rw [this]
          congr 1
          omega
    · have h0 : bl = 0 := by omega
      subst h0
      simp [frames_of_zero]

/-- Only the last header of a non-empty image has the end flag. -/
theorem frames_flags (bl : Nat) : ∀ (buf image : List Nat), 0 < bl →
    ∃ init last, frames_of bl buf image = init ++ [last] ∧
      last.segheader.testBit 63 = true ∧ ∀ s ∈ init, s.segheader.testBit 63 = false := by
  induction bl using Nat.strong_induction_on with
  | _ bl ih =>
    intro buf image hbl
    have hlt : bl - seg_of bl < bl := by have := seg_of_pos bl hbl; omega
    rw [frames_of_pos bl buf image hbl]
    obtain ⟨_, hbit, _, _⟩ := header_facts (if bl - seg_of bl = 0 then 1 else 0)
      (by split <;> omega) (seg_of bl) (seg_of_pos bl hbl) (seg_of_le_max bl)
    rw [← flag_cast] at hbit
    by_cases hend : bl - seg_of bl = 0
    · rw [hend, frames_of_zero]
      rw [hend] at hbit
      refine ⟨[], _, rfl, ?_, by simp⟩
      simp only [if_true, decide_True] at hbit
      simp only [if_true]
      exact hbit
    · obtain ⟨init, last, he, hlast, hinit⟩ := ih (bl - seg_of bl) hlt
        (memset (store buf 0 (image.take (seg_of bl))) (seg_of bl) 0 (pad_of (seg_of bl)))
        (image.drop (seg_of bl)) (by omega)
      refine ⟨_ :: init, last, by rw [he]; rfl, hlast, ?_⟩
      intro s hs
      rcases List.mem_cons.mp hs with h | h
      · subst h
        simp only [hend, if_false] at hbit
        simp only [hend, if_false]
        rw [hbit]
        decide
      · exact hinit s h

/-- An image of exactly MAX_SEG_LEN bytes: one segment, no padding, end flag set. -/
theorem frames_max (buf image : List Nat) :
    (frames_of MAX_SEG_LEN buf image).map
        (fun s => (s.seg_size, s.pad_size, s.segheader.testBit 63)) =
      [(MAX_SEG_LEN, 0, true)] := by
  have h1 : seg_of MAX_SEG_LEN = MAX_SEG_LEN := by decide
  rw [frames_of_pos _ _ _ (by decide), h1, Nat.sub_self, frames_of_zero, pad_of_max]
  simp only [List.map_cons, List.map_nil, if_true]
  have : (gen_seg_header 1 1 (BOOT_FIFO_ADDR : Nat) (MAX_SEG_LEN + 0)).testBit 63 = true := by
    decide
  rw [this]

/-- An image of MAX_SEG_LEN + 1 bytes: a full segment without the end flag,
then one byte with seven bytes of padding and the end flag. -/
theorem frames_max_succ (buf image : List Nat) :
    (frames_of (MAX_SEG_LEN + 1) buf image).map
        (fun s => (s.seg_size, s.pad_size, s.segheader.testBit 63)) =
      [(MAX_SEG_LEN, 0, false), (1, 7, true)] := by
  have h1 : seg_of (MAX_SEG_LEN + 1) = MAX_SEG_LEN := by decide
  have h2 : MAX_SEG_LEN + 1 - MAX_SEG_LEN = 1 := by decide
  have h3 : seg_of 1 = 1 := by decide
  have h4 : pad_of 1 = 7 := by decide
  rw [frames_of_pos _ _ _ (by decide), h1, h2, pad_of_max, frames_of_pos _ _ _ (by decide), h3,
    h4, Nat.sub_self, frames_of_zero]
  simp only [List.map_cons, List.map_nil, if_true, one_ne_zero, if_false]
  have e1 : (gen_seg_header 0 1 (BOOT_FIFO_ADDR : Nat) (MAX_SEG_LEN + 0)).testBit 63 = false := by
    decide
  have e2 : (gen_seg_header 1 1 (BOOT_FIFO_ADDR : Nat) (1 + 7)).testBit 63 = true := by
    decide
  rw [e1, e2]

theorem spec_decode_stream (flen : Nat → Nat) (frames : List Nat) :
    spec_decode flen (le64 0 ++ frames) = spec_decode_segments flen frames := by
  unfold spec_decode
  have h1 : ¬ (le64 0 ++ frames).length < 8 := by simp [le64_length]
  rw [if_neg h1, List.drop_left' (le64_length 0)]

set_option maxRecDepth 100000 in
theorem spec_decode_segments_nil (flen : Nat → Nat) : spec_decode_segments flen [] = none := by
  rw [spec_decode_segments]
  simp

theorem and_mask (x n : Nat) : x &&& (2 ^ n - 1) = x % 2 ^ n :=
  Nat.and_pow_two_sub_one_eq_mod x n

/-- A bit range that is zero as a number is zero bit by bit. -/
theorem testBit_of_field_zero (h lo n i : Nat) (hz : h / 2 ^ lo % 2 ^ n = 0)
    (h1 : lo ≤ i) (h2 : i < lo + n) : h.testBit i = false := by
  have e : i = lo + (i - lo) := by omega
  have h3 : (h / 2 ^ lo % 2 ^ n).testBit (i - lo) = false := by rw [hz]; simp
  rw [Nat.testBit_mod_two_pow, ← Nat.shiftRight_eq_div_pow, Nat.testBit_shiftRight, ← e] at h3
  simpa [show i - lo < n by omega] using h3

/-! Runs on a script that starts with ok -/

theorem sys_call_ok (s : List Rc) (fr : Option (List Nat)) (pos : Nat) (img : List Nat)
    (sz : Nat) (out : List Nat) (heap : Nat → Nat) (mfd : Bool) (card : Nat → Nat)
    (ecsd : List Nat) (wd act : Option (List Char)) :
    sys_call ⟨.ok :: s, fr, pos, img, sz, out, heap, mfd, card, ecsd, wd, act⟩ =
      (true, ⟨s, fr, pos, img, sz, out, heap, mfd, card, ecsd, wd, act⟩) := rfl

theorem sys_call_error (s : List Rc) (fr : Option (List Nat)) (pos : Nat) (img : List Nat)
    (sz : Nat) (out : List Nat) (heap : Nat → Nat) (mfd : Bool) (card : Nat → Nat)
    (ecsd : List Nat) (wd act : Option (List Char)) :
    sys_call ⟨.error :: s, fr, pos, img, sz, out, heap, mfd, card, ecsd, wd, act⟩ =
      (false, ⟨s, fr, pos, img, sz, out, heap, mfd, card, ecsd, wd, act⟩) := rfl

theorem write_or_die_ofd_ok (data : List Nat) (hd : 0 < data.length)
    (s : List Rc) (fr : Option (List Nat)) (pos : Nat) (img : List Nat)
    (sz : Nat) (out : List Nat) (heap : Nat → Nat) (mfd : Bool) (card : Nat → Nat)
    (ecsd : List Nat) (wd act : Option (List Char)) :
    write_or_die .ofd data ⟨.ok :: s, fr, pos, img, sz, out, heap, mfd, card, ecsd, wd, act⟩ =
      .ret data.length ⟨s, fr, pos, img, sz, out ++ data, heap, mfd, card, ecsd, wd, act⟩ := by
  have hwr : sys_write .ofd data ⟨.ok :: s, fr, pos, img, sz, out, heap, mfd, card, ecsd, wd, act⟩
      = (.wrote data.length,
          ⟨s, fr, pos, img, sz, out ++ data, heap, mfd, card, ecsd, wd, act⟩) := by
    simp [sys_write, next_rc]
  rw [write_or_die, write_or_die_loop_wrote _ _ _ _ _ hd hwr, if_neg (by omega)]
  simp [write_or_die_loop_nil, Res.bind]

theorem write_or_die_error (fd : Fd) (data : List Nat) (hd : 0 < data.length)
    (s : List Rc) (fr : Option (List Nat)) (pos : Nat) (img : List Nat)
    (sz : Nat) (out : List Nat) (heap : Nat → Nat) (mfd : Bool) (card : Nat → Nat)
    (ecsd : List Nat) (wd act : Option (List Char)) :
    write_or_die fd data ⟨.error :: s, fr, pos, img, sz, out, heap, mfd, card, ecsd, wd, act⟩ =
      .died ⟨s, fr, pos, img, sz, out, heap, mfd, card, ecsd, wd, act⟩ := by
  have hwr : sys_write fd data ⟨.error :: s, fr, pos, img, sz, out, heap, mfd, card, ecsd, wd, act⟩
      = (.fail false, ⟨s, fr, pos, img, sz, out, heap, mfd, card, ecsd, wd, act⟩) := by
    simp [sys_write, next_rc]
  rw [write_or_die, write_or_die_loop_error _ _ _ _ hd hwr]
  rfl

theorem read_or_die_error (fd : Fd) (buf : List Nat) (off count : Nat) (hc : 0 < count)
    (s : List Rc) (fr : Option (List Nat)) (pos : Nat) (img : List Nat)
    (sz : Nat) (out : List Nat) (heap : Nat → Nat) (mfd : Bool) (card : Nat → Nat)
    (ecsd : List Nat) (wd act : Option (List Char)) :
    read_or_die fd buf off count
        ⟨.error :: s, fr, pos, img, sz, out, heap, mfd, card, ecsd, wd, act⟩ =
      .died ⟨s, fr, pos, img, sz, out, heap, mfd, card, ecsd, wd, act⟩ := by
  have hrd : sys_read fd count ⟨.error :: s, fr, pos, img, sz, out, heap, mfd, card, ecsd, wd, act⟩
      = (.fail false, ⟨s, fr, pos, img, sz, out, heap, mfd, card, ecsd, wd, act⟩) := by
    simp [sys_read, next_rc]
  rw [read_or_die, read_or_die_loop_error _ _ _ _ _ _ _ hc hrd]

theorem read_or_die_sysfd_ok (x b : Nat) (c : List Nat)
    (s : List Rc) (img : List Nat)
    (sz : Nat) (out : List Nat) (heap : Nat → Nat) (mfd : Bool) (card : Nat → Nat)
    (ecsd : List Nat) (wd act : Option (List Char)) :
    read_or_die .sysfd [x] 0 1
        ⟨.ok :: s, some (b :: c), 0, img, sz, out, heap, mfd, card, ecsd, wd, act⟩ =
      .ret (1, [b]) ⟨s, some (b :: c), 1, img, sz, out, heap, mfd, card, ecsd, wd, act⟩ := by
  have hrd : sys_read .sysfd 1
      ⟨.ok :: s, some (b :: c), 0, img, sz, out, heap, mfd, card, ecsd, wd, act⟩
      = (.data [b], ⟨s, some (b :: c), 1, img, sz, out, heap, mfd, card, ecsd, wd, act⟩) := by
    simp [sys_read, next_rc]
  rw [read_or_die, read_or_die_loop_data _ _ _ _ _ _ _ _ (by omega) hrd]
  simp [read_or_die_loop_zero, store]

theorem write_or_die_sysfd_ok (v b : Nat) (c : List Nat)
    (s : List Rc) (img : List Nat)
    (sz : Nat) (out : List Nat) (heap : Nat → Nat) (mfd : Bool) (card : Nat → Nat)
    (ecsd : List Nat) (wd act : Option (List Char)) :
    write_or_die .sysfd [v]
        ⟨.ok :: s, some (b :: c), 0, img, sz, out, heap, mfd, card, ecsd, wd, act⟩ =
      .ret 1 ⟨s, some (v :: c), 1, img, sz, out, heap, mfd, card, ecsd, wd, act⟩ := by
  have hwr : sys_write .sysfd [v]
      ⟨.ok :: s, some (b :: c), 0, img, sz, out, heap, mfd, card, ecsd, wd, act⟩
      = (.wrote 1, ⟨s, some (v :: c), 1, img, sz, out, heap, mfd, card, ecsd, wd, act⟩) := by
    simp [sys_write, next_rc, store]
  rw [write_or_die, write_or_die_loop_wrote _ _ _ _ _ (by simp) hwr]
  simp [write_or_die_loop_nil, Res.bind]

/-- The first block on a set flag and a script of four ok: the flag is
cleared and sysfd stays open. -/
theorem reset_force_ro_ok (c : List Nat)
    (s : List Rc) (pos : Nat) (img : List Nat)
    (sz : Nat) (out : List Nat) (heap : Nat → Nat) (mfd : Bool) (card : Nat → Nat)
    (ecsd : List Nat) (wd act : Option (List Char)) :
    reset_force_ro dev_path
        ⟨.ok :: .ok :: .ok :: .ok :: s, some (CHAR_1 :: c), pos, img, sz, out, heap, mfd, card,
          ecsd, wd, act⟩ =
      .ret true ⟨s, some (CHAR_0 :: c), 1, img, sz, out, heap, mfd, card, ecsd, wd, act⟩ := by
  have hdev : dev_path.take 5 = ['/', 'd', 'e', 'v', '/'] := by decide
  simp only [reset_force_ro, hdev, if_true, sys_open_force_ro, sys_call_ok,
    read_or_die_sysfd_ok, Res.bind, ne_eq, not_true_eq_false, if_false, List.getD_cons_zero,
    sys_lseek0, or_die, write_or_die_sysfd_ok]

/-- A segment cut short by end of file is written all the same: the bytes
read, then what the buffer held before, then the padding. -/
theorem body_short (buf image : List Nat) (seg pad : Nat) (h1 : image.length ≤ seg)
    (h2 : seg ≤ buf.length) :
    (memset (store buf 0 (image.take seg)) seg 0 pad).take (seg + pad) =
      image ++ (buf.drop image.length).take (seg - image.length) ++ List.replicate pad 0 := by
  rw [List.take_of_length_le h1]
  unfold memset
  rw [store_zero]
  unfold store
  have hl : (List.take seg (image ++ List.drop image.length buf)).length = seg := by
    simp [List.length_take]
    omega
  have e : List.take seg (image ++ List.drop image.length buf) =
      image ++ (buf.drop image.length).take (seg - image.length) := by
    rw [List.take_append_eq_append_take, List.take_of_length_le h1]
  rw [← e]
  apply List.take_left'
  simp only [List.length_append, hl, List.length_replicate]

theorem digitChar_facts (d : Nat) (h : d < 10) :
    (Nat.digitChar d).isDigit = true ∧ (Nat.digitChar d).toNat - '0'.toNat = d ∧
    isspace (Nat.digitChar d) = false ∧ Nat.digitChar d ≠ '-' ∧ Nat.digitChar d ≠ '+' := by
  interval_cases d <;> decide

theorem dec_digits_lt (n : Nat) (h : n < 10) : dec_digits n = [Nat.digitChar n] := by
  rw [dec_digits, if_pos h]

theorem dec_digits_ge (n : Nat) (h : ¬ n < 10) :
    dec_digits n = dec_digits (n / 10) ++ [Nat.digitChar (n % 10)] := by
  rw [dec_digits, if_neg h]

theorem dec_digits_head (n : Nat) : ∃ d rest, d < 10 ∧ dec_digits n = Nat.digitChar d :: rest := by
  induction n using Nat.strong_induction_on with
  | _ n ih =>
    by_cases h : n < 10
    · exact ⟨n, [], h, dec_digits_lt n h⟩
    · obtain ⟨d, rest, hd, he⟩ := ih (n / 10) (by omega)
      exact ⟨d, rest ++ [Nat.digitChar (n % 10)], hd, by rw [dec_digits_ge n h, he]; rfl⟩

theorem scan_digits_dec (n : Nat) : ∀ (acc : Nat) (rest : List Char),
    scan_digits acc (dec_digits n ++ rest) =
      scan_digits (acc * 10 ^ (dec_digits n).length + n) rest := by
  induction n using Nat.strong_induction_on with
  | _ n ih =>
    intro acc rest
    by_cases h : n < 10
    · obtain ⟨h1, h2, _⟩ := digitChar_facts n h
      rw [dec_digits_lt n h]
      simp only [List.singleton_append, scan_digits, h1, if_true, h2, List.length_singleton,
        pow_one]
      rfl
    · have hm : n % 10 < 10 := Nat.mod_lt _ (by norm_num)
      obtain ⟨h1, h2, _⟩ := digitChar_facts (n % 10) hm
      rw [dec_digits_ge n h, List.append_assoc, ih (n / 10) (by omega)]
      simp only [List.singleton_append, scan_digits, h1, if_true, h2, List.length_append,
        List.length_singleton, pow_succ]
      congr 1
      have := Nat.div_add_mod n 10
      generalize 10 ^ (dec_digits (n / 10)).length = k
      have e : (acc * k + n / 10) * 10 = acc * (k * 10) + 10 * (n / 10) := by ring
      rw [e]
      omega

theorem to_int_of_range (n : Int) (h0 : -(2 ^ 31) ≤ n) (h1 : n ≤ 2147483647) : to_int n = n := by
  unfold to_int
  omega

theorem clamp_long_of_range (n : Int) (h0 : -(2 ^ 31) ≤ n) (h1 : n ≤ 2147483647) :
    clamp_long n = n := by
  unfold clamp_long
  rw [if_neg (by omega), if_neg (by omega)]

/-- Reading back with %d what %d printed, followed by a newline, gives the
number, for every non-negative int. -/
theorem scanf_printf (n : Int) (h : 0 ≤ n) (hmax : n ≤ 2147483647) :
    scanf_d (printf_d n ++ ['\n']) = some n := by
  obtain ⟨m, rfl⟩ := Int.eq_ofNat_of_zero_le h
  have hp : printf_d (m : Int) = dec_digits m := by
    unfold printf_d
    rw [if_neg (by omega)]
    rfl
  rw [hp]
  obtain ⟨d, rest, hd, he⟩ := dec_digits_head m
  obtain ⟨h1, _, h3, h4, h5⟩ := digitChar_facts d hd
  have hs := scan_digits_dec m 0 ['\n']
  rw [he] at hs ⊢
  unfold scanf_d
  simp only [List.cons_append, List.dropWhile_cons, h3]
  split
  · next heq => simp at heq
  · next heq => simp at heq; exact absurd heq.1 h4
  · next heq => simp at heq; exact absurd heq.1 h5
  · next c cs hne1 hne2 heq =>
    simp at heq
    obtain ⟨hc, hcs⟩ := heq
    subst hc hcs
    rw [h1, if_pos rfl]
    simp only [List.cons_append] at hs
    have e : scan_digits (0 * 10 ^ (d.digitChar :: rest).length + m) ['\n'] = m := by
      simp [scan_digits, Char.isDigit]
    rw [hs, e, clamp_long_of_range _ (by omega) hmax, to_int_of_range _ (by omega) hmax]

theorem set_watchdog_clean (interval : Int) (w : World) (hc : clean w.script)
    (hw : w.post_reset_wdog ≠ none) :
    ∃ s, (∀ r ∈ s, r ∈ w.script) ∧
      set_watchdog interval w =
        .ret () { w with script := s,
                         post_reset_wdog := some (printf_d (to_int interval) ++ ['\n']) } := by
  obtain ⟨s1, hsub1, h1⟩ := sys_call_clean w hc
  rcases w with ⟨scr, fr, pos, img, sz, out, heap, mfd, card, ecsd, wd, act⟩
  simp only [] at hc hw hsub1 h1 ⊢
  cases wd with
  | none => exact absurd rfl hw
  | some text =>
    obtain ⟨s2, hsub2, h2⟩ := sys_call_clean
      ⟨s1, fr, pos, img, sz, out, heap, mfd, card, ecsd, some [], act⟩
      (clean_of_subset hc hsub1)
    simp only [] at hsub2 h2
    refine ⟨s2, fun r hr => hsub1 r (hsub2 r hr), ?_⟩
    simp only [set_watchdog, h1, h2]

theorem set_second_reset_action_clean (action : List Char) (w : World) (hc : clean w.script)
    (ha : w.second_reset_action ≠ none) :
    ∃ s, (∀ r ∈ s, r ∈ w.script) ∧
      set_second_reset_action action w =
        .ret () { w with script := s, second_reset_action := some (action ++ ['\n']) } := by
  obtain ⟨s1, hsub1, h1⟩ := sys_call_clean w hc
  rcases w with ⟨scr, fr, pos, img, sz, out, heap, mfd, card, ecsd, wd, act⟩
  simp only [] at hc ha hsub1 h1 ⊢
  cases act with
  | none => exact absurd rfl ha
  | some text =>
    obtain ⟨s2, hsub2, h2⟩ := sys_call_clean
      ⟨s1, fr, pos, img, sz, out, heap, mfd, card, ecsd, wd, some []⟩
      (clean_of_subset hc hsub1)
    simp only [] at hsub2 h2
    refine ⟨s2, fun r hr => hsub1 r (hsub2 r hr), ?_⟩
    simp only [set_second_reset_action, h1, h2]

theorem get_watchdog_clean (w : World) (hc : clean w.script) (text : List Char) (n : Int)
    (hw : w.post_reset_wdog = some text) (hn : scanf_d text = some n) :
    ∃ s, (∀ r ∈ s, r ∈ w.script) ∧ get_watchdog w = .ret n { w with script := s } := by
  obtain ⟨s1, hsub1, h1⟩ := sys_call_clean w hc
  refine ⟨s1, hsub1, ?_⟩
  simp only [get_watchdog, h1, hw, hn]

/-- Both paths of main over the configuration store, for an interval n in
the non-negative range of int. -/
theorem watchdog_paths (n : Int) (hn : 0 ≤ n) (hmax : n ≤ 2147483647) (action : List Char)
    (w : World) (hc : clean w.script) (hw : w.post_reset_wdog ≠ none)
    (ha : w.second_reset_action ≠ none) :
    ∃ w1 w2, ((set_watchdog n w).bind fun _ w1 => set_second_reset_action action w1)
        = .ret () w1 ∧
      get_watchdog w1 = .ret n w2 ∧
      w1.post_reset_wdog = some (printf_d n ++ ['\n']) ∧
      w1.second_reset_action = some (action ++ ['\n']) := by
  obtain ⟨s1, hsub1, h1⟩ := set_watchdog_clean n w hc hw
  rw [to_int_of_range n (by omega) hmax] at h1
  obtain ⟨s2, hsub2, h2⟩ := set_second_reset_action_clean action
    { w with script := s1, post_reset_wdog := some (printf_d n ++ ['\n']) }
    (clean_of_subset hc hsub1) ha
  obtain ⟨s3, _, h3⟩ := get_watchdog_clean
    { w with script := s2, post_reset_wdog := some (printf_d n ++ ['\n']),
             second_reset_action := some (action ++ ['\n']) }
    (clean_of_subset hc (fun r hr => hsub1 r (hsub2 r hr))) _ n rfl (scanf_printf n hn hmax)
  refine ⟨_, _, ?_, h3, rfl, rfl⟩
  rw [h1]
  simp only [Res.bind]
  rw [h2]

/-- In a clean world mmc_command opens the device if need be and runs the
ioctl, which succeeds. -/
theorem mmc_command_clean (idata : mmc_ioc_cmd) (w : World) (hc : clean w.script) :
    ∃ s, (∀ r ∈ s, r ∈ w.script) ∧
      mmc_command idata w =
        .ret () (mmc_ioctl idata { w with script := .ok :: s, mmc_fd := true }).2 := by
  rcases w with ⟨scr, fr, pos, img, sz, out, heap, mfd, card, ecsd, wd, act⟩
  simp only [] at hc ⊢
  have step : ∀ (s0 : List Rc), clean s0 →
      ∃ s, (∀ r ∈ s, r ∈ s0) ∧
        or_die (mmc_ioctl idata ⟨s0, fr, pos, img, sz, out, heap, true, card, ecsd, wd, act⟩) =
          .ret () (mmc_ioctl idata
            ⟨.ok :: s, fr, pos, img, sz, out, heap, true, card, ecsd, wd, act⟩).2 := by
    intro s0 hc0
    obtain ⟨s, hsub, h⟩ := sys_call_clean
      ⟨s0, fr, pos, img, sz, out, heap, true, card, ecsd, wd, act⟩ hc0
    simp only [] at hsub h
    refine ⟨s, hsub, ?_⟩
    simp only [mmc_ioctl, h, sys_call_ok, or_die]
    split <;> [split; split <;> [split; skip]] <;> rfl
  cases mfd with
  | true =>
    obtain ⟨s, hsub, h⟩ := step scr hc
    refine ⟨s, hsub, ?_⟩
    simp only [mmc_command, if_true, Res.bind, h]
  | false =>
    obtain ⟨s1, hsub1, h1⟩ := or_die_sys_call_clean
      ⟨scr, fr, pos, img, sz, out, heap, false, card, ecsd, wd, act⟩ hc
    simp only [] at hsub1 h1
    obtain ⟨s, hsub, h⟩ := step s1 (clean_of_subset hc hsub1)
    refine ⟨s, fun r hr => hsub1 r (hsub r hr), ?_⟩
    simp only [mmc_command, Bool.false_eq_true, if_false, Res.bind, h1, h]

theorem getD_range_map (f : Nat → Nat) (n i : Nat) (rest : List Nat) (h : i < n) :
    ((List.range n).map f ++ rest).getD i 0 = f i := by
  rw [List.getD_eq_getElem?_getD, List.getElem?_append_left (by simp [h])]
  simp [h]

/-! ## The properties -/

/-! ### Round trip of the stream -/

/-- C1 (amended): for every image of at least one byte that the source
delivers in full, when no system call fails, write_bootstream returns and
its output decodes as follows. Skip the 8-byte stream header; read each
8-byte segment header and take the frame of 8 times its low 17 bits bytes,
a field of zero standing for 2^17 words; stop after the header with the end
flag. The frame contents, concatenated, are the image followed by the zero
padding of the last segment, so their first st_size bytes are the image.
With the field read as it stands the same holds for images of at most
MAX_SEG_LEN - 8 bytes. -/
theorem write_bootstream_roundtrip (bootfile : List Char) (w : World)
    (hc : clean w.script) (hf : w.force_ro ≠ some []) (hl : w.image.length = w.st_size)
    (hS : 1 ≤ w.st_size) :
    ∃ segs w1 frames, write_bootstream bootfile w = .ret segs w1 ∧
      spec_decode frame_len_wrap w1.out = some frames ∧
      frames.flatten = w.image ++ List.replicate ((8 - w.st_size % 8) % 8) 0 ∧
      frames.flatten.take w.st_size = w.image ∧
      (w.st_size ≤ MAX_SEG_LEN - 8 → spec_decode frame_len w1.out = some frames) := by
  obtain ⟨s, p, _, h⟩ := write_bootstream_clean bootfile w hc hf
  have hj := frames_join w.st_size (buf0 w) w.image hl
  refine ⟨_, _, (frames_of w.st_size (buf0 w) w.image).map Seg.body, h, ?_, ?_, ?_, ?_⟩
  · simp only []
    rw [spec_decode_stream]
    exact frames_decode_wrap w.st_size (buf0 w) w.image hS hl
  · rw [hj, pad_of_eq]
  · rw [hj, ← hl]
    exact List.take_left _ _
  · intro hle
    simp only []
    rw [spec_decode_stream]
    exact frames_decode_literal w.st_size (buf0 w) w.image hS hle hl

theorem write_bootstream_roundtrip_witness :
    clean (example_world [.ok, .part 2] (some [CHAR_0, 10]) [1, 2, 3, 4, 5, 6, 7, 8, 9] 9).script ∧
    (example_world [.ok, .part 2] (some [CHAR_0, 10]) [1, 2, 3, 4, 5, 6, 7, 8, 9] 9).force_ro
      ≠ some [] ∧
    (example_world [.ok, .part 2] (some [CHAR_0, 10]) [1, 2, 3, 4, 5, 6, 7, 8, 9] 9).image.length
      = 9 ∧
    ∃ segs w1 frames,
      write_bootstream dev_path
        (example_world [.ok, .part 2] (some [CHAR_0, 10]) [1, 2, 3, 4, 5, 6, 7, 8, 9] 9)
        = .ret segs w1 ∧
      spec_decode frame_len_wrap w1.out = some frames ∧
      frames.flatten = [1, 2, 3, 4, 5, 6, 7, 8, 9] ++ List.replicate ((8 - 9 % 8) % 8) 0 ∧
      frames.flatten.take 9 = [1, 2, 3, 4, 5, 6, 7, 8, 9] ∧
      ((9 : Nat) ≤ MAX_SEG_LEN - 8 → spec_decode frame_len w1.out = some frames) :=
  ⟨by decide, by decide, rfl,
    write_bootstream_roundtrip dev_path _ (by decide) (by decide) rfl (by decide)⟩

/-- C1 (counterexample): an image of MAX_SEG_LEN bytes is written in full,
yet its stream does not decode with the frame length its low 17 bits give:
the header of the full-size segment has length field 0. Nor does the stream
of the empty image decode: it holds no segment header at all. -/
theorem write_bootstream_roundtrip_counterexample :
    (write_bootstream dev_path
      (example_world [] none (List.replicate MAX_SEG_LEN 0x5A) MAX_SEG_LEN)).returned = true ∧
    spec_decode frame_len (write_bootstream dev_path
      (example_world [] none (List.replicate MAX_SEG_LEN 0x5A) MAX_SEG_LEN)).world.out = none ∧
    (write_bootstream dev_path (example_world [] none [] 0)).returned = true ∧
    spec_decode frame_len (write_bootstream dev_path (example_world [] none [] 0)).world.out
      = none := by
  obtain ⟨s, p, _, h⟩ := write_bootstream_clean dev_path
    (example_world [] none (List.replicate MAX_SEG_LEN 0x5A) MAX_SEG_LEN) (by decide) (by decide)
  obtain ⟨s0, p0, _, h0⟩ := write_bootstream_clean dev_path (example_world [] none [] 0)
    (by decide) (by decide)
  rw [h, h0]
  refine ⟨rfl, ?_, rfl, ?_⟩
  · simp only [Res.world]
    rw [spec_decode_stream]
    exact frames_decode_literal_none _ _ _ (by decide)
  · simp only [Res.world]
    rw [spec_decode_stream]
    have : (example_world [] none [] 0).st_size = 0 := rfl
    rw [this, frames_of_zero]
    exact spec_decode_segments_nil _

/-! ### Short read of the image -/

/-- C2 (the code at the failing input): fstat reports 16 bytes but the
bootstream delivers 3 and then end of file. The run does not die: it returns
having written one 16-byte segment with the end flag, whose payload is the 3
bytes read followed by 13 bytes of what the fresh buffer happened to hold. -/
theorem write_bootstream_short_read :
    ∃ w1, write_bootstream dev_path (example_world [] none [1, 2, 3] 16) =
        .ret [{ segheader := gen_seg_header 1 1 BOOT_FIFO_ADDR 16, seg_size := 16, pad_size := 0,
                body := [1, 2, 3] ++ List.replicate 13 0xEE }] w1 ∧
      w1.image = [] ∧ w1.out.length = 8 + 8 + 16 := by
  obtain ⟨s, p, _, h⟩ := write_bootstream_clean dev_path (example_world [] none [1, 2, 3] 16)
    (by decide) (by decide)
  have hs : (example_world [] none [1, 2, 3] 16).st_size = 16 := rfl
  have hi : (example_world [] none [1, 2, 3] 16).image = [1, 2, 3] := rfl
  have hb : buf0 (example_world [] none [1, 2, 3] 16) = List.replicate MAX_SEG_LEN 0xEE := by
    unfold buf0
    generalize MAX_SEG_LEN = n
    show List.map (fun _ => 0xEE) (List.range n) = List.replicate n 0xEE
    rw [List.map_const', List.length_range]
  have h1 : seg_of 16 = 16 := by decide
  have h2 : pad_of 16 = 0 := by decide
  have h3 : min (16 - 3) (MAX_SEG_LEN - 3) = 13 := by decide
  have hf : frames_of 16 (List.replicate MAX_SEG_LEN 0xEE) [1, 2, 3] =
      [{ segheader := gen_seg_header 1 1 BOOT_FIFO_ADDR 16, seg_size := 16, pad_size := 0,
         body := [1, 2, 3] ++ List.replicate 13 0xEE }] := by
    rw [frames_of_pos _ _ _ (by decide), h1, h2, Nat.sub_self, frames_of_zero,
      body_short _ _ _ _ (by decide) (by rw [List.length_replicate]; decide)]
    simp only [List.length_cons, List.length_nil, List.drop_replicate, List.take_replicate,
      Nat.reduceAdd, h3, List.replicate_zero, List.append_nil, if_true, Nat.add_zero]
  rw [hs, hi, hb, hf] at h
  refine ⟨_, h, ?_, ?_⟩
  · simp
  · simp [Seg.bytes, le64_length]

/-! ### Empty image -/

/-- C3 (amended): for an empty image (st_size 0) write_bootstream, when no
system call fails, returns having emitted no segment at all: the output is
the 8-byte zero stream header and nothing else. -/
theorem write_bootstream_empty (bootfile : List Char) (w : World)
    (hc : clean w.script) (hf : w.force_ro ≠ some []) (h0 : w.st_size = 0) :
    ∃ w1, write_bootstream bootfile w = .ret [] w1 ∧ w1.out = [0, 0, 0, 0, 0, 0, 0, 0] := by
  obtain ⟨s, p, _, h⟩ := write_bootstream_clean bootfile w hc hf
  rw [h0, frames_of_zero] at h
  exact ⟨_, h, rfl⟩

theorem write_bootstream_empty_witness :
    clean (example_world [.eintr, .ok] (some [CHAR_1, 10]) [] 0).script ∧
    (example_world [.eintr, .ok] (some [CHAR_1, 10]) [] 0).force_ro ≠ some [] ∧
    (example_world [.eintr, .ok] (some [CHAR_1, 10]) [] 0).st_size = 0 ∧
    ∃ w1, write_bootstream dev_path (example_world [.eintr, .ok] (some [CHAR_1, 10]) [] 0)
        = .ret [] w1 ∧ w1.out = [0, 0, 0, 0, 0, 0, 0, 0] :=
  ⟨by decide, by decide, rfl,
    write_bootstream_empty dev_path _ (by decide) (by decide) rfl⟩

/-- C3 (counterexample): on an empty image the run returns with 8 bytes of
output and no segment record, not 16 bytes with a terminal segment. -/
theorem write_bootstream_empty_counterexample :
    (write_bootstream dev_path (example_world [] none [] 0)).value = some [] ∧
    (write_bootstream dev_path (example_world [] none [] 0)).world.out.length = 8 ∧
    (write_bootstream dev_path (example_world [] none [] 0)).world.out.length ≠ 16 := by
  obtain ⟨s, p, _, h⟩ := write_bootstream_clean dev_path (example_world [] none [] 0)
    (by decide) (by decide)
  rw [h]
  have : (example_world [] none [] 0).st_size = 0 := rfl
  rw [this, frames_of_zero]
  exact ⟨rfl, rfl, by simp [Res.world, le64]⟩

/-! ### Length field of the segment header -/

/-- C4 (amended): for a payload of 1 to MAX_SEG_LEN bytes padded to a
multiple of 8, the low 17 bits of the header are the frame length in 8-byte
words, (payload + pad + 8) >> 3, reduced modulo 2^17; for a payload of at
most MAX_SEG_LEN - 8 bytes nothing is lost and 8 times the field is the
frame length payload + pad + 8. -/
theorem seg_header_length_field (is_end channel address : Int) (payload : Nat)
    (h1 : 1 ≤ payload) (h2 : payload ≤ MAX_SEG_LEN) :
    gen_seg_header is_end channel address (payload + (8 - payload % 8) % 8) &&& 0x1ffff =
      ((payload + (8 - payload % 8) % 8 + 8) >>> 3) % 2 ^ 17 ∧
    (payload ≤ MAX_SEG_LEN - 8 →
      8 * (gen_seg_header is_end channel address (payload + (8 - payload % 8) % 8) &&& 0x1ffff) =
        payload + (8 - payload % 8) % 8 + 8) := by
  have m17 : ∀ x : Nat, x &&& 0x1ffff = x % 2 ^ 17 := fun x => and_mask x 17
  rw [m17, gen_seg_header_eq]
  simp only [MAX_SEG_LEN, SEGMENT_HEADER_LEN, Nat.shiftRight_eq_div_pow, Nat.reduceShiftLeft,
    Nat.reduceSub] at *
  generalize to_ulong is_end % 2 = a
  generalize to_ulong channel % 16 = c
  generalize to_ulong address / 8 % 8192 = d
  constructor
  · omega
  · intro h3
    omega

theorem seg_header_length_field_witness :
    (1 : Nat) ≤ 5 ∧ (5 : Nat) ≤ MAX_SEG_LEN ∧
    gen_seg_header 1 1 0x408 (5 + (8 - 5 % 8) % 8) &&& 0x1ffff =
      ((5 + (8 - 5 % 8) % 8 + 8) >>> 3) % 2 ^ 17 ∧
    ((5 : Nat) ≤ MAX_SEG_LEN - 8 →
      8 * (gen_seg_header 1 1 0x408 (5 + (8 - 5 % 8) % 8) &&& 0x1ffff) =
        5 + (8 - 5 % 8) % 8 + 8) :=
  ⟨by decide, by decide, seg_header_length_field 1 1 0x408 5 (by decide) (by decide)⟩

/-- C4 (counterexample): an image of MAX_SEG_LEN bytes is written as one
segment of MAX_SEG_LEN payload bytes and no padding whose header has length
field 0, while its frame is (MAX_SEG_LEN + 0 + 8) >> 3 = 2^17 words long. -/
theorem seg_header_length_field_counterexample :
    (write_bootstream dev_path
      (example_world [] none (List.replicate MAX_SEG_LEN 0x5A) MAX_SEG_LEN)).value.map
        (fun segs => segs.map fun s => (s.seg_size, s.pad_size, s.segheader &&& 0x1ffff)) =
      some [(MAX_SEG_LEN, 0, 0)] ∧
    gen_seg_header 1 1 BOOT_FIFO_ADDR (MAX_SEG_LEN + 0) &&& 0x1ffff = 0 ∧
    (MAX_SEG_LEN + 0 + 8) >>> 3 = 2 ^ 17 := by
  obtain ⟨s, p, _, h⟩ := write_bootstream_clean dev_path
    (example_world [] none (List.replicate MAX_SEG_LEN 0x5A) MAX_SEG_LEN) (by decide) (by decide)
  rw [h]
  refine ⟨?_, by decide, by decide⟩
  have hs : (example_world [] none (List.replicate MAX_SEG_LEN 0x5A) MAX_SEG_LEN).st_size
      = MAX_SEG_LEN := rfl
  have h1 : seg_of MAX_SEG_LEN = MAX_SEG_LEN := by decide
  rw [hs, frames_of_pos _ _ _ (by decide), h1, Nat.sub_self, frames_of_zero, pad_of_max]
  simp only [Res.value, Option.map_some', List.map_cons, List.map_nil, if_true]
  have : gen_seg_header 1 1 (BOOT_FIFO_ADDR : Nat) (MAX_SEG_LEN + 0) &&& 0x1ffff = 0 := by decide
  rw [this]

/-! ### End-of-stream flag -/

/-- C5: for a non-empty image (st_size at least 1), when no system call
fails, write_bootstream returns; of the segment headers it wrote exactly the last
one has the end-of-stream flag (bit 63) set and every earlier one has it
clear; the output is the stream header followed by these segments. An image
of MAX_SEG_LEN bytes gives one segment with pad 0 and the flag set; one of
MAX_SEG_LEN + 1 bytes gives (MAX_SEG_LEN, pad 0, flag clear) and then
(1, pad 7, flag set). -/
theorem write_bootstream_end_flag (bootfile : List Char) (w : World)
    (hc : clean w.script) (hf : w.force_ro ≠ some []) (hS : 1 ≤ w.st_size) :
    ∃ segs w1 init last, write_bootstream bootfile w = .ret segs w1 ∧
      w1.out = le64 0 ++ segs.flatMap (fun s => le64 s.segheader ++ s.body) ∧
      segs = init ++ [last] ∧
      last.segheader.testBit 63 = true ∧
      (∀ s ∈ init, s.segheader.testBit 63 = false) ∧
      (w.st_size = MAX_SEG_LEN →
        segs.map (fun s => (s.seg_size, s.pad_size, s.segheader.testBit 63)) =
          [(MAX_SEG_LEN, 0, true)]) ∧
      (w.st_size = MAX_SEG_LEN + 1 →
        segs.map (fun s => (s.seg_size, s.pad_size, s.segheader.testBit 63)) =
          [(MAX_SEG_LEN, 0, false), (1, 7, true)]) := by
  obtain ⟨s, p, _, h⟩ := write_bootstream_clean bootfile w hc hf
  obtain ⟨init, last, he, hlast, hinit⟩ := frames_flags w.st_size (buf0 w) w.image hS
  refine ⟨_, _, init, last, h, rfl, he, hlast, hinit, ?_, ?_⟩
  · intro hm
    rw [hm]
    exact frames_max _ _
  · intro hm
    rw [hm]
    exact frames_max_succ _ _

theorem write_bootstream_end_flag_witness :
    clean (example_world [.part 3, .eintr] (some [CHAR_1, 10]) [1, 2, 3, 4, 5] 5).script ∧
    (example_world [.part 3, .eintr] (some [CHAR_1, 10]) [1, 2, 3, 4, 5] 5).force_ro ≠ some [] ∧
    1 ≤ (example_world [.part 3, .eintr] (some [CHAR_1, 10]) [1, 2, 3, 4, 5] 5).st_size ∧
    ∃ segs w1 init last,
      write_bootstream dev_path
        (example_world [.part 3, .eintr] (some [CHAR_1, 10]) [1, 2, 3, 4, 5] 5) = .ret segs w1 ∧
      w1.out = le64 0 ++ segs.flatMap (fun s => le64 s.segheader ++ s.body) ∧
      segs = init ++ [last] ∧
      last.segheader.testBit 63 = true ∧
      (∀ s ∈ init, s.segheader.testBit 63 = false) ∧
      ((5 : Nat) = MAX_SEG_LEN →
        segs.map (fun s => (s.seg_size, s.pad_size, s.segheader.testBit 63)) =
          [(MAX_SEG_LEN, 0, true)]) ∧
      ((5 : Nat) = MAX_SEG_LEN + 1 →
        segs.map (fun s => (s.seg_size, s.pad_size, s.segheader.testBit 63)) =
          [(MAX_SEG_LEN, 0, false), (1, 7, true)]) :=
  ⟨by decide, by decide, by decide,
    write_bootstream_end_flag dev_path _ (by decide) (by decide) (by decide)⟩

/-! ### Length of the stream -/

/-- C6: for every image length, the image read in full and no system call
failing, write_bootstream returns and the number of bytes it wrote is 8 plus
the sum over the segments of 8 + payload + pad; the payload lengths are the
successive values min(remaining, MAX_SEG_LEN), they sum to st_size, each is
at most MAX_SEG_LEN, and each pad is (8 - payload % 8) % 8. -/
theorem write_bootstream_length (bootfile : List Char) (w : World)
    (hc : clean w.script) (hf : w.force_ro ≠ some []) (hl : w.image.length = w.st_size) :
    ∃ segs w1, write_bootstream bootfile w = .ret segs w1 ∧
      w1.out.length = 8 + (segs.map fun s => 8 + s.seg_size + s.pad_size).sum ∧
      (segs.map Seg.seg_size).sum = w.st_size ∧
      (∀ s ∈ segs, s.seg_size ≤ MAX_SEG_LEN ∧ s.pad_size = (8 - s.seg_size % 8) % 8) ∧
      (∀ (i : Nat) (h : i < segs.length),
        (segs.get ⟨i, h⟩).seg_size =
          min (w.st_size - ((segs.take i).map Seg.seg_size).sum) MAX_SEG_LEN) := by
  obtain ⟨s, p, _, h⟩ := write_bootstream_clean bootfile w hc hf
  obtain ⟨h1, h2, h3⟩ := frames_sizes w.st_size (buf0 w) w.image hl
  refine ⟨_, _, h, ?_, h2, ?_, h3⟩
  · simp only [List.length_append, le64_length, flatMap_bytes_length]
    congr 2
    apply List.map_congr_left
    intro s hs
    rw [(h1 s hs).2.2.2, Nat.add_assoc]
  · intro s hs
    exact ⟨(h1 s hs).2.1, by rw [(h1 s hs).2.2.1, pad_of_eq]⟩

theorem write_bootstream_length_witness :
    clean (example_world [.eintr] none [9, 8, 7] 3).script ∧
    (example_world [.eintr] none [9, 8, 7] 3).force_ro ≠ some [] ∧
    (example_world [.eintr] none [9, 8, 7] 3).image.length = 3 ∧
    ∃ segs w1, write_bootstream dev_path (example_world [.eintr] none [9, 8, 7] 3)
        = .ret segs w1 ∧
      w1.out.length = 8 + (segs.map fun s => 8 + s.seg_size + s.pad_size).sum ∧
      (segs.map Seg.seg_size).sum = 3 ∧
      (∀ s ∈ segs, s.seg_size ≤ MAX_SEG_LEN ∧ s.pad_size = (8 - s.seg_size % 8) % 8) ∧
      (∀ (i : Nat) (h : i < segs.length),
        (segs.get ⟨i, h⟩).seg_size =
          min (3 - ((segs.take i).map Seg.seg_size).sum) MAX_SEG_LEN) :=
  ⟨by decide, by decide, rfl,
    write_bootstream_length dev_path _ (by decide) (by decide) rfl⟩

/-! ### Bit layout of the segment header -/

/-- C7 (amended): for is_end in 0..1, channel in 0..15, a 16-bit address and
any length, the header is a 64-bit word with the end flag at bit 63, the
channel in bits 48-45 and address & 0xfff8 in bits 44-29 (a 16-bit field
whose low three bits, 31-29, are zero); each of the three is recovered from
its range, and every other bit above bit 16 is zero. -/
theorem seg_header_layout (is_end channel address length : Nat)
    (he : is_end ≤ 1) (hc : channel ≤ 15) (ha : address < 2 ^ 16) :
    gen_seg_header is_end channel address length < 2 ^ 64 ∧
    gen_seg_header is_end channel address length >>> 63 = is_end ∧
    (gen_seg_header is_end channel address length >>> 45) &&& 0xf = channel ∧
    (gen_seg_header is_end channel address length >>> 29) &&& 0xffff = address &&& 0xfff8 ∧
    (gen_seg_header is_end channel address length >>> 29) &&& 0x7 = 0 ∧
    (∀ i, 17 ≤ i → i ≠ 63 → ¬ (45 ≤ i ∧ i ≤ 48) → ¬ (29 ≤ i ∧ i ≤ 44) →
      (gen_seg_header is_end channel address length).testBit i = false) := by
  have hlt := gen_seg_header_lt is_end channel address length
  have m4 : ∀ x : Nat, x &&& 0xf = x % 2 ^ 4 := fun x => and_mask x 4
  have m16 : ∀ x : Nat, x &&& 0xffff = x % 2 ^ 16 := fun x => and_mask x 16
  have m3 : ∀ x : Nat, x &&& 0x7 = x % 2 ^ 3 := fun x => and_mask x 3
  have key := gen_seg_header_eq is_end channel address length
  simp only [to_ulong_natCast] at key
  rw [and_fff8]
  simp only [Nat.shiftRight_eq_div_pow, m4, m16, m3]
  generalize gen_seg_header is_end channel address length = h at *
  have hf : (length + 8) % 2 ^ 64 / 8 % 2 ^ 17 < 2 ^ 17 := Nat.mod_lt _ (by norm_num)
  generalize (length + 8) % 2 ^ 64 / 8 % 2 ^ 17 = f at *
  have e1 : is_end % 2 ^ 64 % 2 = is_end := by omega
  have e2 : channel % 2 ^ 64 % 16 = channel := by omega
  have e3 : address % 2 ^ 64 / 8 % 8192 = address / 8 := by omega
  rw [e1, e2, e3] at key
  refine ⟨hlt, by omega, by omega, by omega, by omega, ?_⟩
  intro i hi h63 hch had
  by_cases h64 : 64 ≤ i
  · exact Nat.testBit_lt_two_pow (lt_of_lt_of_le hlt (Nat.pow_le_pow_right (by norm_num) h64))
  · by_cases h49 : 49 ≤ i
    · exact testBit_of_field_zero h 49 14 i (by omega) h49 (by omega)
    · exact testBit_of_field_zero h 17 12 i (by omega) hi (by omega)

theorem seg_header_layout_witness :
    (1 : Nat) ≤ 1 ∧ (1 : Nat) ≤ 15 ∧ (0x408 : Nat) < 2 ^ 16 ∧
    gen_seg_header (1 : Nat) (1 : Nat) (0x408 : Nat) 16 < 2 ^ 64 ∧
    gen_seg_header (1 : Nat) (1 : Nat) (0x408 : Nat) 16 >>> 63 = 1 ∧
    (gen_seg_header (1 : Nat) (1 : Nat) (0x408 : Nat) 16 >>> 45) &&& 0xf = 1 ∧
    (gen_seg_header (1 : Nat) (1 : Nat) (0x408 : Nat) 16 >>> 29) &&& 0xffff = 0x408 &&& 0xfff8 ∧
    (gen_seg_header (1 : Nat) (1 : Nat) (0x408 : Nat) 16 >>> 29) &&& 0x7 = 0 ∧
    (∀ i, 17 ≤ i → i ≠ 63 → ¬ (45 ≤ i ∧ i ≤ 48) → ¬ (29 ≤ i ∧ i ≤ 44) →
      (gen_seg_header (1 : Nat) (1 : Nat) (0x408 : Nat) 16).testBit i = false) :=
  ⟨by decide, by decide, by decide,
    seg_header_layout 1 1 0x408 16 (by decide) (by decide) (by decide)⟩

/-- C7 (counterexample): for the 16-bit address 0x8000 the header has bit 44
set, a bit above bit 16 outside bit 63, bits 48-45 and bits 41-29; and bits
41-29 hold 0, not the address with its low three bits masked. -/
theorem seg_header_layout_counterexample :
    (gen_seg_header 0 0 0x8000 0).testBit 44 = true ∧
    (gen_seg_header 0 0 0x8000 0 >>> 29) &&& 0x1fff = 0 ∧
    (0x8000 : Nat) &&& 0xfff8 = 0x8000 := by
  decide

/-! ### Boot partition register -/

/-- C8: for p in 0..1 the command set_boot_partition(p) issues is an
MMC_SWITCH whose argument is a write-byte access to extended-CSD byte 179
with value ((p + 1) & 0x7) << 3; on a device that stores that byte and is
otherwise unchanged, with no system call failing, set_boot_partition(p)
returns and a following get_boot_partition() returns p. -/
theorem boot_partition_roundtrip (p : Int) (hp : p = 0 ∨ p = 1) (w : World)
    (hc : clean w.script) :
    (set_boot_partition_cmd p).opcode = MMC_SWITCH ∧
    ((set_boot_partition_cmd p).arg >>> 24) &&& 0x3 = MMC_SWITCH_MODE_WRITE_BYTE ∧
    ((set_boot_partition_cmd p).arg >>> 16) &&& 0xff = 179 ∧
    ((set_boot_partition_cmd p).arg >>> 8) &&& 0xff = (to_uint (p + 1) &&& 0x7) <<< 3 ∧
    ∃ w1 w2, set_boot_partition p w = .ret () w1 ∧
      w1.card 179 = (to_uint (p + 1) &&& 0x7) <<< 3 ∧
      (∀ i, i ≠ 179 → w1.card i = w.card i) ∧
      get_boot_partition w1 = .ret p w2 := by
  have hcmd : (set_boot_partition_cmd p).opcode = MMC_SWITCH ∧
      ((set_boot_partition_cmd p).arg >>> 24) &&& 0x3 = MMC_SWITCH_MODE_WRITE_BYTE ∧
      ((set_boot_partition_cmd p).arg >>> 16) &&& 0xff = 179 ∧
      ((set_boot_partition_cmd p).arg >>> 8) &&& 0xff = (to_uint (p + 1) &&& 0x7) <<< 3 ∧
      (((to_uint (p + 1) &&& 0x7) <<< 3 >>> 3 &&& 0x7 : Nat) : Int) - 1 = p := by
    rcases hp with rfl | rfl <;> decide
  obtain ⟨c1, c2, c3, c4, c5⟩ := hcmd
  refine ⟨c1, c2, c3, c4, ?_⟩
  obtain ⟨s1, hsub1, h1⟩ := mmc_command_clean (set_boot_partition_cmd p) w hc
  have hio : (mmc_ioctl (set_boot_partition_cmd p) { w with script := .ok :: s1, mmc_fd := true }).2
      = { w with script := s1, mmc_fd := true,
                 card := fun i => if i = 179 then (to_uint (p + 1) &&& 0x7) <<< 3 else w.card i } := by
    rcases w with ⟨scr, fr, pos, img, sz, out, heap, mfd, card, ecsd, wd, act⟩
    simp only [mmc_ioctl, sys_call_ok, c1, c2, c3, c4]
    simp [MMC_SWITCH, MMC_SEND_EXT_CSD, MMC_SWITCH_MODE_WRITE_BYTE]
  rw [hio] at h1
  obtain ⟨s2, _, h2⟩ := mmc_command_clean
    { write_flag := 0, opcode := MMC_SEND_EXT_CSD, arg := 0,
      flags := MMC_RSP_SPI_R1 ||| MMC_RSP_R1 ||| MMC_CMD_ADTC,
      blksz := EMMC_BLOCK_SIZE, blocks := 1, data_ptr := true }
    { w with script := s1, mmc_fd := true,
             card := fun i => if i = 179 then (to_uint (p + 1) &&& 0x7) <<< 3 else w.card i }
    (clean_of_subset hc hsub1)
  have hget : ∃ w2, get_boot_partition
      { w with script := s1, mmc_fd := true,
               card := fun i => if i = 179 then (to_uint (p + 1) &&& 0x7) <<< 3 else w.card i }
      = .ret p w2 := by
    rw [get_boot_partition]
    simp only [] at h2 ⊢
    rw [h2]
    simp only [Res.bind, mmc_ioctl, sys_call_ok, if_true, store_zero, EMMC_BLOCK_SIZE,
      EXT_CSD_PART_CONFIG, Nat.mul_one]
    rw [getD_range_map _ _ _ _ (by decide)]
    simp only [if_true]
    rw [c5]
    exact ⟨_, rfl⟩
  obtain ⟨w2, hw2⟩ := hget
  exact ⟨_, w2, h1, by simp, fun i hi => by simp [hi], hw2⟩

theorem boot_partition_roundtrip_witness :
    ((1 : Int) = 0 ∨ (1 : Int) = 1) ∧
    clean (example_world [.eintr, .ok] none [] 0).script ∧
    (set_boot_partition_cmd 1).opcode = MMC_SWITCH ∧
    ((set_boot_partition_cmd 1).arg >>> 24) &&& 0x3 = MMC_SWITCH_MODE_WRITE_BYTE ∧
    ((set_boot_partition_cmd 1).arg >>> 16) &&& 0xff = 179 ∧
    ((set_boot_partition_cmd 1).arg >>> 8) &&& 0xff = (to_uint (1 + 1) &&& 0x7) <<< 3 ∧
    ∃ w1 w2, set_boot_partition 1 (example_world [.eintr, .ok] none [] 0) = .ret () w1 ∧
      w1.card 179 = (to_uint (1 + 1) &&& 0x7) <<< 3 ∧
      (∀ i, i ≠ 179 → w1.card i = (example_world [.eintr, .ok] none [] 0).card i) ∧
      get_boot_partition w1 = .ret 1 w2 :=
  ⟨by decide, by decide,
    boot_partition_roundtrip 1 (by decide) (example_world [.eintr, .ok] none [] 0) (by decide)⟩

/-! ### Write protection of the device -/

/-- C9 (amended): if the force_ro entry of the output device reads 1 before
write_bootstream and no system call of the run fails, then the first block
clears the entry to 0 for the time of the copy, write_bootstream returns, and
the entry reads 1 again, with the rest of its content as it was. -/
theorem write_bootstream_restores_force_ro (bootfile : List Char) (w : World) (c : List Nat)
    (hc : clean w.script) (hdev : is_dev bootfile) (hf : w.force_ro = some (CHAR_1 :: c)) :
    (∃ w0, reset_force_ro bootfile w = .ret true w0 ∧ w0.force_ro = some (CHAR_0 :: c)) ∧
    ∃ segs w1, write_bootstream bootfile w = .ret segs w1 ∧
      w1.force_ro = some (CHAR_1 :: c) := by
  have hne : w.force_ro ≠ some [] := by rw [hf]; simp
  constructor
  · obtain ⟨s, p, _, h⟩ := reset_force_ro_clean bootfile w hc hne
    rcases h with ⟨_, hno⟩ | ⟨c2, _, hf2, h⟩
    · exact absurd ⟨hdev, c, hf⟩ hno
    · rw [hf] at hf2
      injection hf2 with hf2
      injection hf2 with _ hf2
      subst hf2
      exact ⟨_, h, rfl⟩
  · obtain ⟨s, p, _, h⟩ := write_bootstream_clean bootfile w hc hne
    exact ⟨_, _, h, hf⟩

theorem write_bootstream_restores_force_ro_witness :
    clean (example_world [.eintr, .part 4] (some [CHAR_1, 10]) [1, 2, 3] 3).script ∧
    is_dev dev_path ∧
    (example_world [.eintr, .part 4] (some [CHAR_1, 10]) [1, 2, 3] 3).force_ro
      = some (CHAR_1 :: [10]) ∧
    (∃ w0,
      reset_force_ro dev_path (example_world [.eintr, .part 4] (some [CHAR_1, 10]) [1, 2, 3] 3)
        = .ret true w0 ∧
      w0.force_ro = some (CHAR_0 :: [10])) ∧
    ∃ segs w1,
      write_bootstream dev_path (example_world [.eintr, .part 4] (some [CHAR_1, 10]) [1, 2, 3] 3)
        = .ret segs w1 ∧
      w1.force_ro = some (CHAR_1 :: [10]) :=
  ⟨by decide, by decide, rfl,
    write_bootstream_restores_force_ro dev_path _ [10] (by decide) (by decide) rfl⟩

/-- C9 (counterexample): the entry reads 1 before the call. When the write
of the stream header fails (ninth call of the run), or when the read of the
first segment fails (eleventh), the process dies and the entry is left
reading 0. -/
theorem write_bootstream_restores_force_ro_counterexample :
    (example_world [.ok, .ok, .ok, .ok, .ok, .ok, .ok, .ok, .error] (some [CHAR_1, 10])
      [1, 2, 3] 3).force_ro = some [CHAR_1, 10] ∧
    (write_bootstream dev_path
      (example_world [.ok, .ok, .ok, .ok, .ok, .ok, .ok, .ok, .error] (some [CHAR_1, 10])
        [1, 2, 3] 3)).returned = false ∧
    (write_bootstream dev_path
      (example_world [.ok, .ok, .ok, .ok, .ok, .ok, .ok, .ok, .error] (some [CHAR_1, 10])
        [1, 2, 3] 3)).world.force_ro = some [CHAR_0, 10] ∧
    (write_bootstream dev_path
      (example_world [.ok, .ok, .ok, .ok, .ok, .ok, .ok, .ok, .ok, .ok, .error]
        (some [CHAR_1, 10]) [1, 2, 3] 3)).returned = false ∧
    (write_bootstream dev_path
      (example_world [.ok, .ok, .ok, .ok, .ok, .ok, .ok, .ok, .ok, .ok, .error]
        (some [CHAR_1, 10]) [1, 2, 3] 3)).world.force_ro = some [CHAR_0, 10] := by
  have h1 : write_bootstream dev_path
      (example_world [.ok, .ok, .ok, .ok, .ok, .ok, .ok, .ok, .error] (some [CHAR_1, 10])
        [1, 2, 3] 3) =
      .died ⟨[], some [CHAR_0, 10], 1, [1, 2, 3], 3, [], fun _ => 0xEE, false, fun _ => 0, [],
        some [], some []⟩ := by
    simp only [write_bootstream, example_world, reset_force_ro_ok, Res.bind, sys_call_ok, or_die,
      if_true, sys_open_ofd, malloc]
    rw [write_or_die_error _ _ (by simp [le64_length])]
  have h2 : write_bootstream dev_path
      (example_world [.ok, .ok, .ok, .ok, .ok, .ok, .ok, .ok, .ok, .ok, .error]
        (some [CHAR_1, 10]) [1, 2, 3] 3) =
      .died ⟨[], some [CHAR_0, 10], 1, [1, 2, 3], 3,
        le64 0 ++ le64 (gen_seg_header 1 1 BOOT_FIFO_ADDR (3 + 5)), fun _ => 0xEE, false,
        fun _ => 0, [], some [], some []⟩ := by
    simp only [write_bootstream, example_world, reset_force_ro_ok, Res.bind, sys_call_ok, or_die,
      if_true, sys_open_ofd, malloc]
    rw [write_or_die_ofd_ok _ (by simp [le64_length])]
    simp only []
    rw [copy_loop]
    simp only [show (3 : Nat) > 0 by decide, dite_true, show (3 : Nat) ≤ MAX_SEG_LEN by decide,
      if_true, Nat.sub_self, show (3 % 8 ≠ 0) by decide, Nat.reduceMod, Nat.reduceSub]
    rw [write_or_die_ofd_ok _ (by simp [le64_length])]
    simp only [Res.bind]
    rw [read_or_die_error _ _ _ _ (by decide)]
    simp
  rw [h1, h2]
  exact ⟨rfl, rfl, rfl, rfl, rfl⟩

/-! ### Reset watchdog -/

/-- C10: over the configuration store as explicit state, with both entries
present and no system call failing: the disarm path (set_watchdog(0) then
set_second_reset_action("none")) returns and leaves the interval, as
get_watchdog reads it back, at 0 and the action at none; the arm path with a
parsed interval n > 0 that fits the int the source keeps it in (n at most
INT_MAX = 2147483647; set_watchdog(n) then
set_second_reset_action("swap_emmc")) returns and leaves the interval at n
and the action at swap_emmc. -/
theorem watchdog_arm_disarm (n : Int) (hn : 0 < n) (hmax : n ≤ 2147483647) (w : World)
    (hc : clean w.script) (hw : w.post_reset_wdog ≠ none) (ha : w.second_reset_action ≠ none) :
    (∃ w1 w2, main_watchdog_disable w = .ret () w1 ∧
      get_watchdog w1 = .ret 0 w2 ∧
      w1.second_reset_action = some ['n', 'o', 'n', 'e', '\n']) ∧
    (∃ w1 w2, main_watchdog_swap n w = .ret () w1 ∧
      get_watchdog w1 = .ret n w2 ∧
      w1.second_reset_action = some ['s', 'w', 'a', 'p', '_', 'e', 'm', 'm', 'c', '\n']) := by
  constructor
  · obtain ⟨w1, w2, h1, h2, _, h4⟩ :=
      watchdog_paths 0 (le_refl _) (by decide) "none".toList w hc hw ha
    exact ⟨w1, w2, h1, h2, h4⟩
  · obtain ⟨w1, w2, h1, h2, _, h4⟩ :=
      watchdog_paths n (le_of_lt hn) hmax "swap_emmc".toList w hc hw ha
    refine ⟨w1, w2, ?_, h2, h4⟩
    unfold main_watchdog_swap
    rw [to_int_of_range n (by omega) hmax]
    exact h1

theorem watchdog_arm_disarm_witness :
    (0 : Int) < 30 ∧ (30 : Int) ≤ 2147483647 ∧
    clean (example_world [.eintr] none [] 0).script ∧
    (example_world [.eintr] none [] 0).post_reset_wdog ≠ none ∧
    (example_world [.eintr] none [] 0).second_reset_action ≠ none ∧
    (∃ w1 w2, main_watchdog_disable (example_world [.eintr] none [] 0) = .ret () w1 ∧
      get_watchdog w1 = .ret 0 w2 ∧
      w1.second_reset_action = some ['n', 'o', 'n', 'e', '\n']) ∧
    (∃ w1 w2, main_watchdog_swap 30 (example_world [.eintr] none [] 0) = .ret () w1 ∧
      get_watchdog w1 = .ret 30 w2 ∧
      w1.second_reset_action = some ['s', 'w', 'a', 'p', '_', 'e', 'm', 'm', 'c', '\n']) :=
  ⟨by decide, by decide, by decide, by decide, by decide,
    watchdog_arm_disarm 30 (by decide) (by decide) _ (by decide) (by decide) (by decide)⟩

end Bootctl
